import Mathlib

/-!
# Dory: XML configuration helpers, mock-server connect handler, UNIX stream server

A shallow embedding of

* `xml/config/config_util.cc` (structural validation of a DOM element and the
  typed attribute readers of `TAttrReader`),
* `dory/mock_kafka_server/connect_handler.cc` (`TConnectHandler::OnEvent`),
* `server/unix_stream_server.h` (`TUnixStreamServer::SetMode / ClearMode`)

together with the properties established about them.

Conventions.  A `std::string` and a NUL-terminated `const char *` are both the
list of their characters (terminator excluded).  A function that may throw
returns `Except` with the thrown exception on the left.  Machine integers are
mathematical integers; where the C++ arithmetic can leave the range of the type
the result is reduced explicitly (`IntType.wrap`).
-/

namespace Dory

/-! ## Characters and strings -/

/-- Embeds `std::isspace` in the "C" locale: space, `\t`, `\n`, `\v`, `\f`, `\r`. -/
def isspace (c : Char) : Bool :=
  c = ' ' || c = '\t' || c = '\n' || c = '\x0b' || c = '\x0c' || c = '\r'

/-- Embeds `boost::algorithm::trim_left`: drop the leading whitespace. -/
def trim_left (s : List Char) : List Char :=
  s.dropWhile isspace

/-- Embeds `boost::algorithm::trim_right`: drop the trailing whitespace. -/
def trim_right (s : List Char) : List Char :=
  s.rdropWhile isspace

/-- Embeds `boost::algorithm::trim`: `trim_right` followed by `trim_left`. -/
def trim (s : List Char) : List Char :=
  trim_left (trim_right s)

/-! ## Option flags of `TAttrReader` -/

/-- Modelled from the spec: the enumerators of `TAttrReader::TOpts` are declared
in `xml/config/config_util.h`, which is not among the sources.  They are option
flags combined with `|` and tested with `&`, so each is a distinct single bit. -/
def REQUIRE_PRESENCE : Nat := 1 <<< 0

/-- Modelled from the spec: see `REQUIRE_PRESENCE`. -/
def STRICT_EMPTY_VALUE : Nat := 1 <<< 1

/-- Modelled from the spec: see `REQUIRE_PRESENCE`. -/
def TRIM_WHITESPACE : Nat := 1 <<< 2

/-- Modelled from the spec: see `REQUIRE_PRESENCE`. -/
def THROW_IF_EMPTY : Nat := 1 <<< 3

/-- Modelled from the spec: see `REQUIRE_PRESENCE`. -/
def CASE_SENSITIVE : Nat := 1 <<< 4

/-- Modelled from the spec: see `REQUIRE_PRESENCE`. -/
def ALLOW_K : Nat := 1 <<< 5

/-- Modelled from the spec: see `REQUIRE_PRESENCE`. -/
def ALLOW_M : Nat := 1 <<< 6

/-- The C++ condition `opts & flag` (non-zero means true). -/
def hasOpt (opts flag : Nat) : Bool :=
  (opts &&& flag) != 0

/-! ## Multiplier suffixes -/

/-- Embeds `ExtractMultiplier(std::string &value, unsigned opts)`: the returned
multiplier together with the contents of `value` on exit. -/
def ExtractMultiplier (value : List Char) (opts : Nat) : Nat × List Char :=
  if value.length > 1 then
    let back := value.getLast?
    let mult : Nat :=
      if back = some 'k' ∨ back = some 'K' then
        (if hasOpt opts ALLOW_K then 1024 else 1)
      else if back = some 'm' ∨ back = some 'M' then
        (if hasOpt opts ALLOW_M then 1024 * 1024 else 1)
      else 1
    if mult ≠ 1 then (mult, trim_right value.dropLast) else (mult, value)
  else (1, value)

/-! ## 64-bit integer types -/

/-- The two instantiations of the template parameter `T` of `AttrToInt`. -/
inductive IntType where
  | int64
  | uint64
  deriving DecidableEq, Repr

/-- Embeds `std::is_signed<T>::value`. -/
def IntType.is_signed : IntType → Bool
  | .int64 => true
  | .uint64 => false

/-- Embeds `std::numeric_limits<T>::min()`. -/
def IntType.min : IntType → Int
  | .int64 => -(2 ^ 63)
  | .uint64 => 0

/-- Embeds `std::numeric_limits<T>::max()`. -/
def IntType.max : IntType → Int
  | .int64 => 2 ^ 63 - 1
  | .uint64 => 2 ^ 64 - 1

/-- The value a 64-bit register of type `T` holds for the mathematical integer
`x`: reduction modulo `2 ^ 64` into the range of `T`. -/
def IntType.wrap (T : IntType) (x : Int) : Int :=
  match T with
  | .uint64 => x % 2 ^ 64
  | .int64 => (x + 2 ^ 63) % 2 ^ 64 - 2 ^ 63

/-! ## The document model -/

/-- A child node as `getNodeType()` classifies it.  `other` stands for every
node type the switch statements send to `default:` (comments, processing
instructions, entity references, ...). -/
inductive Node (E : Type) where
  | element (e : E)
  | text (data : List Char)
  | cdata (data : List Char)
  | other

/-- A `DOMElement`: its tag name, its attributes (name, value) and its child
nodes in document order (`getFirstChild()` / `getNextSibling()`). -/
inductive DOMElement where
  | mk (tagName : List Char) (attrs : List (List Char × List Char))
      (children : List (Node DOMElement))

/-- Embeds `elem.getTagName()`, transcoded. -/
def DOMElement.getTagName : DOMElement → List Char
  | .mk n _ _ => n

/-- The attribute list of an element. -/
def DOMElement.attrs : DOMElement → List (List Char × List Char)
  | .mk _ a _ => a

/-- The child nodes of an element, first to last. -/
def DOMElement.children : DOMElement → List (Node DOMElement)
  | .mk _ _ c => c

/-- Embeds `elem.getAttributeNode(name)` followed by `getValue()`: the value of the
attribute called `name`, `none` for the null pointer. -/
def DOMElement.getAttributeNode (elem : DOMElement) (name : List Char) :
    Option (List Char) :=
  (elem.attrs.find? (fun a => a.1 = name)).map Prod.snd

/-! ## Exceptions -/

/-- The exceptions thrown by `config_util.cc`, with their constructor
arguments.  The last constructor, `AssertionFailure`, is no exception: it
stands for the abort at a failed `assert`. -/
inductive TXmlError where
  | TDuplicateElement (elem : DOMElement)
  | TUnknownElement (elem : DOMElement)
  | TUnexpectedText (text : Node DOMElement)
  | TMissingChildElement (parent : DOMElement) (name : List Char)
  | TUnexpectedElementName (elem : DOMElement) (expected : List Char)
  | TExpectedLeaf (elem : DOMElement)
  | TMissingAttrValue (elem : DOMElement) (attr_name : List Char)
  | TInvalidBoolAttr (elem : DOMElement) (attr_name value true_value false_value : List Char)
  | TInvalidSignedIntegerAttr (elem : DOMElement) (attr_name value : List Char)
  | TInvalidUnsignedIntegerAttr (elem : DOMElement) (attr_name value : List Char)
  | TAttrOutOfRange (elem : DOMElement) (attr_name value : List Char)
  | AssertionFailure

/-! ## Integer attributes -/

/-- The value of a decimal digit character. -/
def digitValue (c : Char) : Option Nat :=
  if '0' ≤ c ∧ c ≤ '9' then some (c.toNat - '0'.toNat) else none

/-- The number written by a run of decimal digits, read left to right from the
accumulator `acc`; `none` when a character is not a digit. -/
def readDigits : List Char → Nat → Option Nat
  | [], acc => some acc
  | c :: cs, acc =>
    match digitValue c with
    | some d => readDigits cs (10 * acc + d)
    | none => none

/-- Model of `boost::lexical_cast<T>(const std::string &)` for the two 64-bit
integer types (a library routine, not part of the repository): an optional
sign, then at least one decimal digit and nothing else, the magnitude fitting
the unsigned 64-bit type.  For `int64_t` the signed value must be in range; for
`uint64_t` a leading minus negates modulo `2 ^ 64`.  `none` stands for
`bad_lexical_cast`. -/
def lexical_cast (T : IntType) (s : List Char) : Option Int :=
  match s with
  | [] => none
  | c :: cs =>
    let has_minus : Bool := c = '-'
    let digits := if has_minus ∨ c = '+' then cs else c :: cs
    if digits = [] then none else
    match readDigits digits 0 with
    | none => none
    | some out_tmp =>
      if out_tmp > 2 ^ 64 - 1 then none else
      match T with
      | .uint64 => some (if has_minus then (0 - (out_tmp : Int)) % 2 ^ 64 else out_tmp)
      | .int64 =>
        if has_minus then
          (if out_tmp ≤ 2 ^ 63 then some (-(out_tmp : Int)) else none)
        else
          (if out_tmp ≤ 2 ^ 63 - 1 then some (out_tmp : Int) else none)

/-- Embeds `AttrToInt<T>(attr, elem, attr_name, opts)`.  The parameter `cast` is
`boost::lexical_cast<T>`, with `none` for `bad_lexical_cast`. -/
def AttrToInt (T : IntType) (cast : List Char → Option Int) (attr : List Char)
    (elem : DOMElement) (attr_name : List Char) (opts : Nat) : Except TXmlError Int :=
  let r := ExtractMultiplier attr opts
  let attr_copy := r.2
  let mult : Int := T.wrap r.1
  match cast attr_copy with
  | none =>
    if T.is_signed then
      .error (.TInvalidSignedIntegerAttr elem attr_name attr)
    else
      .error (.TInvalidUnsignedIntegerAttr elem attr_name attr)
  | some value =>
    if value < T.min.tdiv mult ∨ value > T.max.tdiv mult then
      .error (.TAttrOutOfRange elem attr_name attr)
    else
      .ok (T.wrap (value * mult))

/-! ## `std::unordered_map` keyed by strings -/

/-- A `std::unordered_map<std::string, V>`: its entries, keys kept distinct by
`UMap.insert`.  (The iteration order of the C++ container is unspecified; the
functions below only use `count`, `insert` and lookup.) -/
abbrev UMap (V : Type) := List (List Char × V)

/-- Embeds `m.count(key) != 0`. -/
def UMap.count {V : Type} (m : UMap V) (key : List Char) : Bool :=
  m.any (fun kv => kv.1 = key)

/-- The value stored under `key`, if any (`m.find(key)`). -/
def UMap.find {V : Type} (m : UMap V) (key : List Char) : Option V :=
  (List.find? (fun kv => kv.1 = key) m).map Prod.snd

/-- Embeds `m.insert(item)`: the map afterwards and the `.second` of the returned
pair, which tells whether the insertion took place (it does not when the key
is already present). -/
def UMap.insert {V : Type} (m : UMap V) (item : List Char × V) : UMap V × Bool :=
  if m.count item.1 then (m, false) else (m ++ [item], true)

/-! ## Structural validation -/

/-- Embeds `IsAllWhitespace(node)`, on the transcoded character data of the node. -/
def IsAllWhitespace : List Char → Bool
  | [] => true
  | c :: data => if !isspace c then false else IsAllWhitespace data

/-- The first loop of `GetSubsectionElements`: inserts every item of
`subsection_vec` into `subsection_map`. -/
def GetSubsectionElements.buildMap (subsection_vec : List (List Char × Bool)) : UMap Bool :=
  subsection_vec.foldl (fun m item => (m.insert item).1) []

/-- The loop of `GetSubsectionElements` over the children of `parent`, from the
child at the head of the list on, with `result` as built so far. -/
def GetSubsectionElements.loop (subsection_map : UMap Bool) (allow_unknown_subsection : Bool) :
    List (Node DOMElement) → UMap DOMElement → Except TXmlError (UMap DOMElement)
  | [], result => .ok result
  | .element elem :: rest, result =>
    let name := elem.getTagName
    if subsection_map.count name then
      let ret := result.insert (name, elem)
      if !ret.2 then .error (.TDuplicateElement elem)
      else GetSubsectionElements.loop subsection_map allow_unknown_subsection rest ret.1
    else if !allow_unknown_subsection then .error (.TUnknownElement elem)
    else GetSubsectionElements.loop subsection_map allow_unknown_subsection rest result
  | .text data :: rest, result =>
    if !IsAllWhitespace data then .error (.TUnexpectedText (.text data))
    else GetSubsectionElements.loop subsection_map allow_unknown_subsection rest result
  | .cdata data :: rest, result =>
    if !IsAllWhitespace data then .error (.TUnexpectedText (.cdata data))
    else GetSubsectionElements.loop subsection_map allow_unknown_subsection rest result
  | .other :: rest, result =>
    GetSubsectionElements.loop subsection_map allow_unknown_subsection rest result

/-- The last loop of `GetSubsectionElements`: the first required item of
`subsection_vec` that `result` lacks is reported. -/
def GetSubsectionElements.checkRequired (parent : DOMElement) (result : UMap DOMElement) :
    List (List Char × Bool) → Except TXmlError Unit
  | [] => .ok ()
  | item :: rest =>
    if item.2 && !result.count item.1 then .error (.TMissingChildElement parent item.1)
    else GetSubsectionElements.checkRequired parent result rest

/-- Embeds `GetSubsectionElements(parent, subsection_vec, allow_unknown_subsection)`. -/
def GetSubsectionElements (parent : DOMElement) (subsection_vec : List (List Char × Bool))
    (allow_unknown_subsection : Bool) : Except TXmlError (UMap DOMElement) :=
  let subsection_map := GetSubsectionElements.buildMap subsection_vec
  match GetSubsectionElements.loop subsection_map allow_unknown_subsection parent.children [] with
  | .error x => .error x
  | .ok result =>
    match GetSubsectionElements.checkRequired parent result subsection_vec with
    | .error x => .error x
    | .ok () => .ok result

/-- The loop of `GetItemListElements` over the children of `parent`, with
`result` as built so far. -/
def GetItemListElements.loop (item_name : List Char) :
    List (Node DOMElement) → List DOMElement → Except TXmlError (List DOMElement)
  | [], result => .ok result
  | .element elem :: rest, result =>
    let name := elem.getTagName
    if name ≠ item_name then .error (.TUnexpectedElementName elem item_name)
    else GetItemListElements.loop item_name rest (result ++ [elem])
  | .text data :: rest, result =>
    if !IsAllWhitespace data then .error (.TUnexpectedText (.text data))
    else GetItemListElements.loop item_name rest result
  | .cdata data :: rest, result =>
    if !IsAllWhitespace data then .error (.TUnexpectedText (.cdata data))
    else GetItemListElements.loop item_name rest result
  | .other :: rest, result => GetItemListElements.loop item_name rest result

/-- Embeds `GetItemListElements(parent, item_name)`. -/
def GetItemListElements (parent : DOMElement) (item_name : List Char) :
    Except TXmlError (List DOMElement) :=
  GetItemListElements.loop item_name parent.children []

/-! ## String and boolean attributes -/

/-- Embeds `TAttrReader::GetOptString(elem, attr_name, opts)`; `none` is the unknown
`TOpt`. -/
def GetOptString (elem : DOMElement) (attr_name : List Char) (opts : Nat) :
    Option (List Char) :=
  match elem.getAttributeNode attr_name with
  | none => none
  | some value => some (if hasOpt opts TRIM_WHITESPACE then trim value else value)

/-- Embeds `TAttrReader::GetString(elem, attr_name, opts)`. -/
def GetString (elem : DOMElement) (attr_name : List Char) (opts : Nat) :
    Except TXmlError (List Char) :=
  match elem.getAttributeNode attr_name with
  | none => .error (.TMissingAttrValue elem attr_name)
  | some value =>
    let result := if hasOpt opts TRIM_WHITESPACE then trim value else value
    if hasOpt opts THROW_IF_EMPTY && result.isEmpty then
      .error (.TMissingAttrValue elem attr_name)
    else .ok result

/-- Embeds `tolower` in the "C" locale. -/
def tolower (c : Char) : Char :=
  if 'A' ≤ c ∧ c ≤ 'Z' then Char.ofNat (c.toNat + 32) else c

/-- Embeds `std::strcmp(a, b)`: the difference of the first pair of characters that
differ, the end of a string counting as the terminator 0; the comparison stops
at a terminator. -/
def strcmp : List Char → List Char → Int
  | [], [] => 0
  | [], b :: _ => - (b.toNat : Int)
  | a :: _, [] => (a.toNat : Int)
  | a :: as, b :: bs =>
    if a = b then (if a.toNat = 0 then 0 else strcmp as bs)
    else (a.toNat : Int) - (b.toNat : Int)

/-- Embeds `strcasecmp(a, b)`: as `strcmp` on the lower-cased characters. -/
def strcasecmp : List Char → List Char → Int
  | [], [] => 0
  | [], b :: _ => - ((tolower b).toNat : Int)
  | a :: _, [] => ((tolower a).toNat : Int)
  | a :: as, b :: bs =>
    if tolower a = tolower b then (if (tolower a).toNat = 0 then 0 else strcasecmp as bs)
    else ((tolower a).toNat : Int) - ((tolower b).toNat : Int)

/-- The `compare_fn` chosen by `StringToBool`. -/
def compare_fn (case_sensitive : Bool) : List Char → List Char → Int :=
  if case_sensitive then strcmp else strcasecmp

/-- Embeds `StringToBool(s, true_value, false_value, case_sensitive, elem, attr_name)`.
The statement `assert(!(is_true && is_false))` ends the run with
`AssertionFailure` when `s` matches both tokens. -/
def StringToBool (s true_value false_value : List Char) (case_sensitive : Bool)
    (elem : DOMElement) (attr_name : List Char) : Except TXmlError Bool :=
  let is_true : Bool := compare_fn case_sensitive s true_value = 0
  let is_false : Bool := compare_fn case_sensitive s false_value = 0
  if is_true && is_false then .error .AssertionFailure
  else if !is_true && !is_false then
    .error (.TInvalidBoolAttr elem attr_name s true_value false_value)
  else .ok is_true

/-- Embeds `TAttrReader::GetNamedBool(elem, attr_name, true_value, false_value, opts)`. -/
def GetNamedBool (elem : DOMElement) (attr_name true_value false_value : List Char)
    (opts : Nat) : Except TXmlError Bool :=
  match GetString elem attr_name (TRIM_WHITESPACE ||| THROW_IF_EMPTY) with
  | .error x => .error x
  | .ok s => StringToBool s true_value false_value (hasOpt opts CASE_SENSITIVE) elem attr_name

/-! ## The connect handler of the mock server -/

/-- What a call of `Accept(fd, client_address)` hands back: the return value of
`accept`, a new descriptor or a negative number, and `errno` as it stands
afterwards. -/
structure AcceptOutcome where
  ret : Int
  errno : Nat

/-- The `std::system_error` raised for a failed system call, with its error
code. -/
structure SystemError where
  code : Nat
  deriving DecidableEq, Repr

/-- Modelled from the spec: `IfLt0` is declared in `base/error_utils.h`, which is
not among the sources.  It is the check put around system calls: a result below
zero is raised as a system error carrying `errno` (the spec's "all other
conditions are fatal and escalate" path), any other result is handed through. -/
def IfLt0 (ret : Int) (errno : Nat) : Except SystemError Int :=
  if ret < 0 then .error ⟨errno⟩ else .ok ret

/-- Modelled from the spec: `Base::TFd` is declared in `base/fd.h`, which is not
among the sources.  It owns at most one descriptor ("ownership transfers ...
once dispatched, the Acceptor Core holds no reference to it"): `none` is the
empty state a moved-from `TFd` is left in. -/
structure TFd where
  fd : Option Int
  deriving DecidableEq, Repr

/-- Modelled from the spec: `std::move` of a `TFd` into a new `TFd` (see `TFd`):
the new owner first, then what is left behind. -/
def TFd.move (x : TFd) : TFd × TFd :=
  (x, ⟨none⟩)

/-- The members of `TConnectHandler` that `OnEvent` uses: the client handler
factory and the shared context it is given.  `H` is the type of the handler
object the factory returns. -/
structure TConnectHandler (PM PO SS H : Type) where
  CreateClientHandler : PM → PO → SS → TFd → H
  PortMap : PM
  PortOffset : PO
  Ss : SS

/-- The calls `OnEvent` makes, in order.  `close` is the system call a `TFd`
that still owns a descriptor makes when it goes out of scope. -/
inductive Call (PM PO SS H : Type) where
  | Accept (fd : Int)
  | CreateClientHandler (port_map : PM) (port_offset : PO) (ss : SS) (client_socket : TFd)
  | RunThread (handler : H)
  | close (fd : Int)

/-- Modelled from the spec: the destructor of `TFd` (see `TFd`): closes the
descriptor it owns, if any. -/
def TFd.destroy {PM PO SS H : Type} (x : TFd) : List (Call PM PO SS H) :=
  match x.fd with
  | some d => [Call.close d]
  | none => []

/-- Embeds `TConnectHandler::OnEvent(fd, flags)`: the calls made, and the exception
that leaves the function, if any.  `acc` is what `Accept` comes back with;
`ifLt0` is the function `IfLt0`. -/
def OnEvent {PM PO SS H : Type} (self : TConnectHandler PM PO SS H)
    (ifLt0 : Int → Nat → Except SystemError Int) (fd : Int) (acc : AcceptOutcome) :
    List (Call PM PO SS H) × Option SystemError :=
  match ifLt0 acc.ret acc.errno with
  | .error x => ([Call.Accept fd], some x)
  | .ok sock =>
    let client_socket : TFd := ⟨some sock⟩
    let moved := TFd.move client_socket
    let handler := self.CreateClientHandler self.PortMap self.PortOffset self.Ss moved.1
    ([Call.Accept fd,
      Call.CreateClientHandler self.PortMap self.PortOffset self.Ss moved.1,
      Call.RunThread handler] ++ TFd.destroy moved.2, none)

/-- Embeds `EAGAIN` / `EWOULDBLOCK` on Linux: resource temporarily unavailable. -/
def EAGAIN : Nat := 11

/-- Embeds `ECONNABORTED` on Linux: the connection was aborted before `accept`
completed. -/
def ECONNABORTED : Nat := 103

/-! ## The UNIX stream server -/

/-- The state of a `TUnixStreamServer`: its members `Path`, `Mode`
(`Base::TOpt<mode_t>`, `none` when unknown) and `ClientAddr`, and the listening
socket its base class `TStreamServerBase` holds (`none` while none is
created). -/
structure TUnixStreamServer where
  Path : List Char
  Mode : Option Nat
  ClientAddr : List Nat
  ListeningSocket : Option Int
  deriving DecidableEq, Repr

/-- Modelled from the spec: the constructor of `TUnixStreamServer` is defined in
`server/unix_stream_server.cc`, which is not among the sources.  It records the
path; the mode override is an optional value, absent until `SetMode` is called
("This is the default behavior if SetMode() has not been called"), and no
listening resource exists before `Start()`. -/
def TUnixStreamServer.new (path : List Char) : TUnixStreamServer :=
  { Path := path, Mode := none, ClientAddr := [], ListeningSocket := none }

/-- Modelled from the spec: `SetMode` is declared in `unix_stream_server.h` and
defined in `server/unix_stream_server.cc`, which is not among the sources:
"record a permission mode to apply on the next socket creation; has no effect on
an already-created listening resource". -/
def TUnixStreamServer.SetMode (self : TUnixStreamServer) (mode : Nat) : TUnixStreamServer :=
  { self with Mode := some mode }

/-- Embeds `TUnixStreamServer::ClearMode()`: `Mode.Reset()`. -/
def TUnixStreamServer.ClearMode (self : TUnixStreamServer) : TUnixStreamServer :=
  { self with Mode := none }

/-- A call of one of the two mode operations. -/
inductive ModeOp where
  | SetMode (mode : Nat)
  | ClearMode
  deriving DecidableEq, Repr

/-- The server after one mode operation. -/
def ModeOp.apply (self : TUnixStreamServer) : ModeOp → TUnixStreamServer
  | .SetMode mode => self.SetMode mode
  | .ClearMode => self.ClearMode

/-- The override a mode operation leaves behind. -/
def ModeOp.override : ModeOp → Option Nat
  | .SetMode mode => some mode
  | .ClearMode => none

/-- The server after a sequence of mode operations, first to last. -/
def runModeOps (self : TUnixStreamServer) (ops : List ModeOp) : TUnixStreamServer :=
  ops.foldl ModeOp.apply self

/-! ## Optional boolean attributes and 64-bit integer attributes -/

/-- Embeds `TAttrReader::GetOptNamedBool(elem, attr_name, true_value, false_value,
opts)`; `none` is the unknown `TOpt`. -/
def GetOptNamedBool (elem : DOMElement) (attr_name true_value false_value : List Char)
    (opts : Nat) : Except TXmlError (Option Bool) :=
  match GetOptString elem attr_name TRIM_WHITESPACE with
  | none =>
    if hasOpt opts REQUIRE_PRESENCE then .error (.TMissingAttrValue elem attr_name)
    else .ok none
  | some s =>
    if !s.isEmpty then
      match StringToBool s true_value false_value (hasOpt opts CASE_SENSITIVE) elem attr_name with
      | .error x => .error x
      | .ok b => .ok (some b)
    else .ok none

/-- Embeds `GetOpt64BitIntAttr<T>(elem, attr_name, empty_value_name, opts)`.  The
pointer `empty_value_name` is `none` when null; the result `none` is the
unknown `TOpt`.  The parameter `cast` is `boost::lexical_cast<T>`. -/
def GetOpt64BitIntAttr (T : IntType) (cast : List Char → Option Int) (elem : DOMElement)
    (attr_name : List Char) (empty_value_name : Option (List Char)) (opts : Nat) :
    Except TXmlError (Option Int) :=
  match GetOptString elem attr_name TRIM_WHITESPACE with
  | none =>
    if hasOpt opts REQUIRE_PRESENCE then .error (.TMissingAttrValue elem attr_name)
    else .ok none
  | some s =>
    if s.isEmpty then
      if empty_value_name.isSome && hasOpt opts STRICT_EMPTY_VALUE then
        .error (.TMissingAttrValue elem attr_name)
      else .ok none
    else if empty_value_name.isNone || decide (some s ≠ empty_value_name) then
      match AttrToInt T cast s elem attr_name opts with
      | .error x => .error x
      | .ok v => .ok (some v)
    else .ok none

/-- Embeds `TAttrReader::GetOptUint64`: `GetOpt64BitIntAttr<uint64_t>`. -/
def GetOptUint64 (cast : List Char → Option Int) (elem : DOMElement) (attr_name : List Char)
    (empty_value_name : Option (List Char)) (opts : Nat) : Except TXmlError (Option Int) :=
  GetOpt64BitIntAttr .uint64 cast elem attr_name empty_value_name opts

/-- Embeds `TAttrReader::GetOptInt64`: `GetOpt64BitIntAttr<int64_t>`. -/
def GetOptInt64 (cast : List Char → Option Int) (elem : DOMElement) (attr_name : List Char)
    (empty_value_name : Option (List Char)) (opts : Nat) : Except TXmlError (Option Int) :=
  GetOpt64BitIntAttr .int64 cast elem attr_name empty_value_name opts

/-- Embeds `Get64BitIntAttr<T>(elem, attr_name, opts)`.  The parameter `cast` is
`boost::lexical_cast<T>`. -/
def Get64BitIntAttr (T : IntType) (cast : List Char → Option Int) (elem : DOMElement)
    (attr_name : List Char) (opts : Nat) : Except TXmlError Int :=
  match GetString elem attr_name (TRIM_WHITESPACE ||| THROW_IF_EMPTY) with
  | .error x => .error x
  | .ok s => AttrToInt T cast s elem attr_name opts

/-- Embeds `TAttrReader::GetUint64`: `Get64BitIntAttr<uint64_t>`. -/
def GetUint64 (cast : List Char → Option Int) (elem : DOMElement) (attr_name : List Char)
    (opts : Nat) : Except TXmlError Int :=
  Get64BitIntAttr .uint64 cast elem attr_name opts

/-- Embeds `TAttrReader::GetInt64`: `Get64BitIntAttr<int64_t>`. -/
def GetInt64 (cast : List Char → Option Int) (elem : DOMElement) (attr_name : List Char)
    (opts : Nat) : Except TXmlError Int :=
  Get64BitIntAttr .int64 cast elem attr_name opts

/-- The invalid-integer exception `AttrToInt<T>` throws on `bad_lexical_cast`:
`TInvalidSignedIntegerAttr` for a signed `T`, `TInvalidUnsignedIntegerAttr`
otherwise. -/
def invalidIntegerAttr (T : IntType) (elem : DOMElement) (attr_name value : List Char) :
    TXmlError :=
  if T.is_signed then .TInvalidSignedIntegerAttr elem attr_name value
  else .TInvalidUnsignedIntegerAttr elem attr_name value

/-- A decimal numeral: an optional sign followed by one or more decimal digits
and nothing else. -/
def isNumeral (s : List Char) : Bool :=
  match s with
  | [] => false
  | c :: cs =>
    let digits := if c = '-' ∨ c = '+' then cs else c :: cs
    !digits.isEmpty && digits.all (fun d => (digitValue d).isSome)

/-! ## Leaf checks -/

/-- Embeds `RequireNoChildElement(elem)`, as the loop over the children of `elem`
from the child at the head of the list on. -/
def RequireNoChildElement.loop : List (Node DOMElement) → Except TXmlError Unit
  | [] => .ok ()
  | .element child :: _ => .error (.TUnknownElement child)
  | .text _ :: rest => RequireNoChildElement.loop rest
  | .cdata _ :: rest => RequireNoChildElement.loop rest
  | .other :: rest => RequireNoChildElement.loop rest

/-- Embeds `RequireNoChildElement(elem)`. -/
def RequireNoChildElement (elem : DOMElement) : Except TXmlError Unit :=
  RequireNoChildElement.loop elem.children

/-- Embeds `RequireNoGrandchildElement(elem)`, as the loop over the children of
`elem` from the child at the head of the list on. -/
def RequireNoGrandchildElement.loop : List (Node DOMElement) → Except TXmlError Unit
  | [] => .ok ()
  | .element child :: rest =>
    match RequireNoChildElement child with
    | .error x => .error x
    | .ok () => RequireNoGrandchildElement.loop rest
  | .text _ :: rest => RequireNoGrandchildElement.loop rest
  | .cdata _ :: rest => RequireNoGrandchildElement.loop rest
  | .other :: rest => RequireNoGrandchildElement.loop rest

/-- Embeds `RequireNoGrandchildElement(elem)`. -/
def RequireNoGrandchildElement (elem : DOMElement) : Except TXmlError Unit :=
  RequireNoGrandchildElement.loop elem.children

/-- Embeds `RequireLeaf(elem)`: `getFirstChild()` is null exactly when `elem` has
no child node. -/
def RequireLeaf (elem : DOMElement) : Except TXmlError Unit :=
  match elem.children with
  | _ :: _ => .error (.TExpectedLeaf elem)
  | [] => .ok ()

/-- Embeds `RequireAllChildElementLeaves(elem)`, as the loop over the children of
`elem` from the child at the head of the list on. -/
def RequireAllChildElementLeaves.loop : List (Node DOMElement) → Except TXmlError Unit
  | [] => .ok ()
  | .element child :: rest =>
    match RequireLeaf child with
    | .error x => .error x
    | .ok () => RequireAllChildElementLeaves.loop rest
  | .text _ :: rest => RequireAllChildElementLeaves.loop rest
  | .cdata _ :: rest => RequireAllChildElementLeaves.loop rest
  | .other :: rest => RequireAllChildElementLeaves.loop rest

/-- Embeds `RequireAllChildElementLeaves(elem)`. -/
def RequireAllChildElementLeaves (elem : DOMElement) : Except TXmlError Unit :=
  RequireAllChildElementLeaves.loop elem.children

/-! ## Vocabulary for the statements -/

/-- Whether a call creates or starts a client handler. -/
def Call.isDispatch {PM PO SS H : Type} : Call PM PO SS H → Bool
  | .CreateClientHandler _ _ _ _ => true
  | .RunThread _ => true
  | _ => false

/-- The entries `(tag name, element)` of the element children whose tag name is
a key of `subsection_map`, in document order. -/
def listedElems (subsection_map : UMap Bool) :
    List (Node DOMElement) → List (List Char × DOMElement)
  | [] => []
  | .element e :: rest =>
    if subsection_map.count e.getTagName then
      (e.getTagName, e) :: listedElems subsection_map rest
    else listedElems subsection_map rest
  | .text _ :: rest => listedElems subsection_map rest
  | .cdata _ :: rest => listedElems subsection_map rest
  | .other :: rest => listedElems subsection_map rest

/-- The element children among a list of child nodes, in document order. -/
def elementChildren : List (Node DOMElement) → List DOMElement
  | [] => []
  | .element e :: rest => e :: elementChildren rest
  | .text _ :: rest => elementChildren rest
  | .cdata _ :: rest => elementChildren rest
  | .other :: rest => elementChildren rest

/-- Two child nodes do not clash: if both are elements with one tag name, that
name is not a key of `subsection_map`. -/
def NoClash (subsection_map : UMap Bool) (a b : Node DOMElement) : Prop :=
  ∀ e1 e2, a = Node.element e1 → b = Node.element e2 →
    e1.getTagName = e2.getTagName → UMap.count subsection_map e1.getTagName = false

/-- The characters of a C string that a comparison looks at: those before the
first terminator. -/
def cstr : List Char → List Char
  | [] => []
  | c :: cs => if c.toNat = 0 then [] else c :: cstr cs

/-- What the `compare_fn` of `StringToBool` compares: the characters up to the
terminator, lower-cased unless the comparison is case sensitive. -/
def compareKey (case_sensitive : Bool) (s : List Char) : List Char :=
  if case_sensitive then cstr s else cstr (s.map tolower)

/-- Embeds `getNodeType() == DOMNode::ELEMENT_NODE`. -/
def Node.isElement {E : Type} : Node E → Bool
  | .element _ => true
  | _ => false

/-- A child that `GetItemListElements` accepts: an element named `item_name`, a
text or CDATA node that is all whitespace, or a node of another type. -/
def GoodItem (item_name : List Char) (c : Node DOMElement) : Prop :=
  (∀ e, c = Node.element e → e.getTagName = item_name) ∧
  (∀ d, (c = Node.text d ∨ c = Node.cdata d) → IsAllWhitespace d = true)

/-- The children `cs` all pass the child loop of `GetSubsectionElements`: text
and CDATA children are all whitespace, element children are listed in
`subsection_vec` unless unknown ones are allowed, and no two element children
share a listed tag name. -/
def ChildrenPass (subsection_vec : List (List Char × Bool)) (allow_unknown_subsection : Bool)
    (cs : List (Node DOMElement)) : Prop :=
  (∀ d, (Node.text d ∈ cs ∨ Node.cdata d ∈ cs) → ∀ ch ∈ d, isspace ch = true) ∧
  (allow_unknown_subsection = true ∨
    ∀ e, Node.element e ∈ cs → e.getTagName ∈ subsection_vec.map Prod.fst) ∧
  (∀ (i j : Nat) (e1 e2 : DOMElement), i < j →
    cs[i]? = some (Node.element e1) → cs[j]? = some (Node.element e2) →
    e1.getTagName = e2.getTagName → e1.getTagName ∉ subsection_vec.map Prod.fst)

/-- The child `bad`, coming after the children `pre`, is a violation reported as
the exception `x`: a listed element whose tag name an element of `pre` already
has (`TDuplicateElement`), an unlisted element when unknown ones are not
allowed (`TUnknownElement`), or a text or CDATA node that is not all whitespace
(`TUnexpectedText`). -/
def Offends (subsection_vec : List (List Char × Bool)) (allow_unknown_subsection : Bool)
    (pre : List (Node DOMElement)) (bad : Node DOMElement) (x : TXmlError) : Prop :=
  (∃ e, bad = Node.element e ∧ e.getTagName ∈ subsection_vec.map Prod.fst ∧
    (∃ e', Node.element e' ∈ pre ∧ e'.getTagName = e.getTagName) ∧
    x = TXmlError.TDuplicateElement e) ∨
  (∃ e, bad = Node.element e ∧ e.getTagName ∉ subsection_vec.map Prod.fst ∧
    allow_unknown_subsection = false ∧ x = TXmlError.TUnknownElement e) ∨
  (∃ d, (bad = Node.text d ∨ bad = Node.cdata d) ∧ (¬ ∀ ch ∈ d, isspace ch = true) ∧
    x = TXmlError.TUnexpectedText bad)

/-! # Properties -/

/-! ## Multiplier suffixes -/

theorem ExtractMultiplier_fst (value : List Char) (opts : Nat) :
    (ExtractMultiplier value opts).1 =
      if 1 < value.length ∧ (value.getLast? = some 'k' ∨ value.getLast? = some 'K') ∧
          hasOpt opts ALLOW_K = true then 1024
      else if 1 < value.length ∧ (value.getLast? = some 'm' ∨ value.getLast? = some 'M') ∧
          hasOpt opts ALLOW_M = true then 1048576
      else 1 := by
  unfold ExtractMultiplier
  by_cases hlen : 1 < value.length
  · by_cases hk : value.getLast? = some 'k' ∨ value.getLast? = some 'K'
    · by_cases ok : hasOpt opts ALLOW_K = true
      · simp [hlen, hk, ok]
      · have hm : ¬ (value.getLast? = some 'm' ∨ value.getLast? = some 'M') := by
          rcases hk with h | h <;> simp [h]
        simp [hlen, hk, ok, hm]
    · by_cases hm : value.getLast? = some 'm' ∨ value.getLast? = some 'M'
      · by_cases om : hasOpt opts ALLOW_M = true
        · simp [hlen, hk, hm, om]
        · simp [hlen, hk, hm, om]
      · simp [hlen, hk, hm]
  · simp [hlen]

theorem ExtractMultiplier_snd (value : List Char) (opts : Nat) :
    (ExtractMultiplier value opts).2 =
      if (ExtractMultiplier value opts).1 ≠ 1 then trim_right value.dropLast else value := by
  have key : ∀ (mult : Nat) (a b : List Char),
      (if mult ≠ 1 then (mult, a) else (mult, b)).2 =
        if (if mult ≠ 1 then (mult, a) else (mult, b)).1 ≠ 1 then a else b := by
    intro mult a b
    by_cases h : mult = 1 <;> simp [h]
  unfold ExtractMultiplier
  by_cases hlen : 1 < value.length
  · simp only [gt_iff_lt, hlen, if_true]
    exact key _ _ _
  · simp [hlen]

theorem ExtractMultiplier_cases (value : List Char) (opts : Nat) :
    (ExtractMultiplier value opts).1 = 1 ∨ (ExtractMultiplier value opts).1 = 1024 ∨
      (ExtractMultiplier value opts).1 = 1048576 := by
  rw [ExtractMultiplier_fst]
  split
  · exact Or.inr (Or.inl rfl)
  · split
    · exact Or.inr (Or.inr rfl)
    · exact Or.inl rfl

/-- What `trim_right` does, stated without reference to its implementation: it
removes a run of whitespace from the end and what is left does not end in
whitespace. -/
theorem trim_right_spec (s : List Char) :
    ∃ ws, s = trim_right s ++ ws ∧ (∀ x ∈ ws, isspace x = true) ∧
      ∀ h : trim_right s ≠ [], isspace ((trim_right s).getLast h) = false := by
  refine ⟨(s.reverse.takeWhile isspace).reverse, ?_, ?_, ?_⟩
  · have h := List.takeWhile_append_dropWhile isspace s.reverse
    have h2 := congrArg List.reverse h
    simp only [List.reverse_append, List.reverse_reverse] at h2
    simpa [trim_right, List.rdropWhile] using h2.symm
  · intro x hx
    rw [List.mem_reverse] at hx
    exact List.mem_takeWhile_imp hx
  · intro h
    have := List.rdropWhile_last_not isspace s h
    simpa using this

/-- C4: for a non-empty `value`, `ExtractMultiplier` returns 1024 when `value`
has more than one character, ends in `k`/`K` and `ALLOW_K` is set, 1048576 when
it has more than one character, ends in `m`/`M` and `ALLOW_M` is set, and 1 in
every other case.  When the result is not 1 the last character and the
whitespace that then trails are removed from `value`; when it is 1 `value` is
unchanged, in particular when `value` is a single character. -/
theorem ExtractMultiplier_contract (value : List Char) (opts : Nat) (hne : value ≠ []) :
    (1 < value.length → (value.getLast hne = 'k' ∨ value.getLast hne = 'K') →
        hasOpt opts ALLOW_K = true → (ExtractMultiplier value opts).1 = 1024) ∧
    (1 < value.length → (value.getLast hne = 'm' ∨ value.getLast hne = 'M') →
        hasOpt opts ALLOW_M = true → (ExtractMultiplier value opts).1 = 1048576) ∧
    (¬ (1 < value.length ∧ (value.getLast hne = 'k' ∨ value.getLast hne = 'K') ∧
          hasOpt opts ALLOW_K = true) →
      ¬ (1 < value.length ∧ (value.getLast hne = 'm' ∨ value.getLast hne = 'M') ∧
          hasOpt opts ALLOW_M = true) →
      (ExtractMultiplier value opts).1 = 1) ∧
    ((ExtractMultiplier value opts).1 ≠ 1 →
      (ExtractMultiplier value opts).2 = trim_right value.dropLast ∧
      ∃ ws, value = (ExtractMultiplier value opts).2 ++ ws ++ [value.getLast hne] ∧
        (∀ x ∈ ws, isspace x = true) ∧
        ∀ h : (ExtractMultiplier value opts).2 ≠ [],
          isspace (((ExtractMultiplier value opts).2).getLast h) = false) ∧
    ((ExtractMultiplier value opts).1 = 1 → (ExtractMultiplier value opts).2 = value) ∧
    (value.length = 1 → ExtractMultiplier value opts = (1, value)) := by
  have hl : value.getLast? = some (value.getLast hne) := List.getLast?_eq_getLast value hne
  have hfst := ExtractMultiplier_fst value opts
  have hsnd := ExtractMultiplier_snd value opts
  simp only [hl, Option.some.injEq] at hfst
  refine ⟨?_, ?_, ?_, ?_, ?_, ?_⟩
  · intro h1 h2 h3
    rw [hfst, if_pos ⟨h1, h2, h3⟩]
  · intro h1 h2 h3
    have hk : ¬ (value.getLast hne = 'k' ∨ value.getLast hne = 'K') := by
      rcases h2 with h | h <;> simp [h]
    rw [hfst, if_neg (fun h => hk h.2.1), if_pos ⟨h1, h2, h3⟩]
  · intro hk hm
    rw [hfst, if_neg hk, if_neg hm]
  · intro h
    rw [if_pos h] at hsnd
    refine ⟨hsnd, ?_⟩
    obtain ⟨ws, hws, hall, hlast⟩ := trim_right_spec value.dropLast
    refine ⟨ws, ?_, hall, ?_⟩
    · rw [hsnd, ← hws]
      exact (List.dropLast_append_getLast hne).symm
    · rw [hsnd]
      exact hlast
  · intro h
    have h' : ¬ (ExtractMultiplier value opts).1 ≠ 1 := fun hc => hc h
    rw [if_neg h'] at hsnd
    exact hsnd
  · intro h
    simp [ExtractMultiplier, h]

theorem ExtractMultiplier_contract_witness :
    hasOpt ALLOW_K ALLOW_K = true ∧
    (ExtractMultiplier ['1', '2', ' ', 'k'] ALLOW_K).1 = 1024 ∧
    (ExtractMultiplier ['1', '2', ' ', 'k'] ALLOW_K).2 = ['1', '2'] ∧
    ExtractMultiplier ['k'] ALLOW_K = (1, ['k']) :=
  ⟨by decide,
   (ExtractMultiplier_contract ['1', '2', ' ', 'k'] ALLOW_K (by decide)).1
     (by decide) (by decide) (by decide),
   by decide,
   (ExtractMultiplier_contract ['k'] ALLOW_K (by decide)).2.2.2.2.2 (by decide)⟩

/-! ## Integer attributes -/

/-- C1: for `T` either 64-bit type, an attribute text whose numeric
part (what `ExtractMultiplier` leaves) is cast to an integer `v` in the range of
`T`, and `m` the multiplier the suffix selects: `m` is 1, 1024 or 1048576;
`AttrToInt<T>` returns exactly the mathematical product `v * m` when that lies
in `[T.min, T.max]` and throws `TAttrOutOfRange` when it does not; so whatever
it returns is `v * m`, never a wrapped-around value. -/
theorem AttrToInt_exact (T : IntType) (cast : List Char → Option Int)
    (attr : List Char) (elem : DOMElement) (attr_name : List Char) (opts : Nat) (v : Int)
    (hcast : cast (ExtractMultiplier attr opts).2 = some v)
    (hv : T.min ≤ v ∧ v ≤ T.max) :
    ((ExtractMultiplier attr opts).1 = 1 ∨ (ExtractMultiplier attr opts).1 = 1024 ∨
      (ExtractMultiplier attr opts).1 = 1048576) ∧
    ((T.min ≤ v * ((ExtractMultiplier attr opts).1 : Int) ∧
        v * ((ExtractMultiplier attr opts).1 : Int) ≤ T.max) →
      AttrToInt T cast attr elem attr_name opts =
        .ok (v * ((ExtractMultiplier attr opts).1 : Int))) ∧
    (¬ (T.min ≤ v * ((ExtractMultiplier attr opts).1 : Int) ∧
        v * ((ExtractMultiplier attr opts).1 : Int) ≤ T.max) →
      AttrToInt T cast attr elem attr_name opts =
        .error (.TAttrOutOfRange elem attr_name attr)) ∧
    (∀ r, AttrToInt T cast attr elem attr_name opts = .ok r →
      r = v * ((ExtractMultiplier attr opts).1 : Int) ∧ T.min ≤ r ∧ r ≤ T.max) := by
  have hm := ExtractMultiplier_cases attr opts
  have key : ∀ m : Nat, (m = 1 ∨ m = 1024 ∨ m = 1048576) →
      ((T.min ≤ v * (m : Int) ∧ v * (m : Int) ≤ T.max) →
        (¬ (v < T.min.tdiv (T.wrap m) ∨ v > T.max.tdiv (T.wrap m)) ∧
          T.wrap (v * T.wrap m) = v * (m : Int))) ∧
      (¬ (T.min ≤ v * (m : Int) ∧ v * (m : Int) ≤ T.max) →
        (v < T.min.tdiv (T.wrap m) ∨ v > T.max.tdiv (T.wrap m))) := by
    intro m hm
    have d1 : Int.tdiv (-9223372036854775808) 1 = -9223372036854775808 := by decide
    have d2 : Int.tdiv (-9223372036854775808) 1024 = -9007199254740992 := by decide
    have d3 : Int.tdiv (-9223372036854775808) 1048576 = -8796093022208 := by decide
    have d4 : Int.tdiv 9223372036854775807 1 = 9223372036854775807 := by decide
    have d5 : Int.tdiv 9223372036854775807 1024 = 9007199254740991 := by decide
    have d6 : Int.tdiv 9223372036854775807 1048576 = 8796093022207 := by decide
    have d7 : Int.tdiv 18446744073709551615 1 = 18446744073709551615 := by decide
    have d8 : Int.tdiv 18446744073709551615 1024 = 18014398509481983 := by decide
    have d9 : Int.tdiv 18446744073709551615 1048576 = 17592186044415 := by decide
    have d0 : ∀ k : Int, Int.tdiv 0 k = 0 := fun k => Int.zero_tdiv k
    cases T <;> rcases hm with rfl | rfl | rfl <;>
      simp only [IntType.min, IntType.max, IntType.wrap] at hv ⊢ <;>
      norm_num [d0, d1, d2, d3, d4, d5, d6, d7, d8, d9] at hv ⊢ <;> omega
  obtain ⟨kin, kout⟩ := key _ hm
  have hin : (T.min ≤ v * ((ExtractMultiplier attr opts).1 : Int) ∧
        v * ((ExtractMultiplier attr opts).1 : Int) ≤ T.max) →
      AttrToInt T cast attr elem attr_name opts =
        .ok (v * ((ExtractMultiplier attr opts).1 : Int)) := by
    intro h
    obtain ⟨h1, h2⟩ := kin h
    simp only [AttrToInt, hcast, if_neg h1, h2]
  have hout : ¬ (T.min ≤ v * ((ExtractMultiplier attr opts).1 : Int) ∧
        v * ((ExtractMultiplier attr opts).1 : Int) ≤ T.max) →
      AttrToInt T cast attr elem attr_name opts =
        .error (.TAttrOutOfRange elem attr_name attr) := by
    intro h
    simp only [AttrToInt, hcast, if_pos (kout h)]
  refine ⟨hm, hin, hout, ?_⟩
  intro r hr
  by_cases h : T.min ≤ v * ((ExtractMultiplier attr opts).1 : Int) ∧
        v * ((ExtractMultiplier attr opts).1 : Int) ≤ T.max
  · rw [hin h] at hr
    cases hr
    exact ⟨rfl, h⟩
  · rw [hout h] at hr
    cases hr

theorem AttrToInt_exact_witness :
    lexical_cast .uint64 (ExtractMultiplier "18014398509481983k".toList ALLOW_K).2 =
      some 18014398509481983 ∧
    AttrToInt .uint64 (lexical_cast .uint64) "18014398509481983k".toList
      (DOMElement.mk [] [] []) [] ALLOW_K = .ok 18446744073709550592 ∧
    AttrToInt .uint64 (lexical_cast .uint64) "18014398509481984k".toList
      (DOMElement.mk [] [] []) [] ALLOW_K =
        .error (.TAttrOutOfRange (DOMElement.mk [] [] []) [] "18014398509481984k".toList) ∧
    AttrToInt .int64 (lexical_cast .int64) "-9007199254740992k".toList
      (DOMElement.mk [] [] []) [] ALLOW_K = .ok (-9223372036854775808) :=
  ⟨by decide,
   (AttrToInt_exact .uint64 (lexical_cast .uint64) "18014398509481983k".toList
      (DOMElement.mk [] [] []) [] ALLOW_K 18014398509481983 (by decide) (by decide)).2.1
      (by decide),
   (AttrToInt_exact .uint64 (lexical_cast .uint64) "18014398509481984k".toList
      (DOMElement.mk [] [] []) [] ALLOW_K 18014398509481984 (by decide) (by decide)).2.2.1
      (by decide),
   ((AttrToInt_exact .int64 (lexical_cast .int64) "-9007199254740992k".toList
      (DOMElement.mk [] [] []) [] ALLOW_K (-9007199254740992) (by decide) (by decide)).2.1
      (by decide)).trans (congrArg Except.ok (by decide))⟩

/-! ## Structural validation -/

theorem IsAllWhitespace_iff (data : List Char) :
    IsAllWhitespace data = true ↔ ∀ c ∈ data, isspace c = true := by
  induction data with
  | nil => simp [IsAllWhitespace]
  | cons c data ih =>
    by_cases h : isspace c = true
    · simp [IsAllWhitespace, h, ih]
    · simp [IsAllWhitespace, h]

theorem UMap.count_append {V : Type} (a b : UMap V) (k : List Char) :
    UMap.count (a ++ b) k = (UMap.count a k || UMap.count b k) := by
  unfold UMap.count
  exact List.any_append

theorem UMap.count_iff {V : Type} (m : UMap V) (k : List Char) :
    UMap.count m k = true ↔ k ∈ m.map Prod.fst := by
  unfold UMap.count
  rw [List.any_eq_true, List.mem_map]
  constructor
  · rintro ⟨x, hx, h⟩
    exact ⟨x, hx, of_decide_eq_true h⟩
  · rintro ⟨x, hx, h⟩
    exact ⟨x, hx, decide_eq_true h⟩

theorem UMap.count_insert {V : Type} (m : UMap V) (item : List Char × V) (k : List Char) :
    UMap.count (UMap.insert m item).1 k = true ↔ (UMap.count m k = true ∨ item.1 = k) := by
  unfold UMap.insert
  by_cases hc : UMap.count m item.1 = true
  · rw [if_pos hc]
    constructor
    · exact Or.inl
    · rintro (h | h)
      · exact h
      · rw [← h]; exact hc
  · rw [if_neg hc]
    show UMap.count (m ++ [item]) k = true ↔ _
    rw [UMap.count_append, Bool.or_eq_true]
    have : UMap.count [item] k = true ↔ item.1 = k := by
      rw [UMap.count_iff]; simp [eq_comm]
    rw [this]

theorem buildMap_count (subsection_vec : List (List Char × Bool)) (k : List Char) :
    UMap.count (GetSubsectionElements.buildMap subsection_vec) k = true ↔
      k ∈ subsection_vec.map Prod.fst := by
  have gen : ∀ (vec : List (List Char × Bool)) (m : UMap Bool),
      UMap.count (vec.foldl (fun m item => (UMap.insert m item).1) m) k = true ↔
        (UMap.count m k = true ∨ k ∈ vec.map Prod.fst) := by
    intro vec
    induction vec with
    | nil => intro m; simp
    | cons item rest ih =>
      intro m
      rw [List.foldl_cons, ih, UMap.count_insert, List.map_cons, List.mem_cons, or_assoc]
      constructor
      · rintro (h | h | h)
        · exact Or.inl h
        · exact Or.inr (Or.inl h.symm)
        · exact Or.inr (Or.inr h)
      · rintro (h | h | h)
        · exact Or.inl h
        · exact Or.inr (Or.inl h.symm)
        · exact Or.inr (Or.inr h)
  have h := gen subsection_vec []
  have h0 : ¬ UMap.count ([] : UMap Bool) k = true := by simp [UMap.count]
  rw [GetSubsectionElements.buildMap, h]
  exact or_iff_right h0

theorem listedElems_mem (m : UMap Bool) (cs : List (Node DOMElement)) (n : List Char)
    (e : DOMElement) :
    (n, e) ∈ listedElems m cs ↔
      Node.element e ∈ cs ∧ e.getTagName = n ∧ UMap.count m n = true := by
  induction cs with
  | nil => simp [listedElems]
  | cons c rest ih =>
    cases c with
    | element e' =>
      by_cases hc : UMap.count m e'.getTagName = true
      · rw [listedElems, if_pos hc, List.mem_cons, ih, List.mem_cons, Prod.mk.injEq,
          Node.element.injEq]
        constructor
        · rintro (⟨h1, h2⟩ | ⟨h1, h2, h3⟩)
          · subst h2; subst h1; exact ⟨Or.inl rfl, rfl, hc⟩
          · exact ⟨Or.inr h1, h2, h3⟩
        · rintro ⟨h1 | h1, h2, h3⟩
          · subst h1; exact Or.inl ⟨h2.symm, rfl⟩
          · exact Or.inr ⟨h1, h2, h3⟩
      · rw [listedElems, if_neg hc, ih, List.mem_cons, Node.element.injEq]
        constructor
        · rintro ⟨h1, h2, h3⟩
          exact ⟨Or.inr h1, h2, h3⟩
        · rintro ⟨h1 | h1, h2, h3⟩
          · subst h1; subst h2; exact absurd h3 hc
          · exact ⟨h1, h2, h3⟩
    | text d => simp [listedElems, ih]
    | cdata d => simp [listedElems, ih]
    | other => simp [listedElems, ih]

theorem loop_ok_iff (m : UMap Bool) (allow : Bool) (cs : List (Node DOMElement)) :
    ∀ (r r' : UMap DOMElement),
      GetSubsectionElements.loop m allow cs r = .ok r' ↔
        (∀ c ∈ cs, ∀ data, (c = Node.text data ∨ c = Node.cdata data) →
          IsAllWhitespace data = true) ∧
        (allow = true ∨ ∀ c ∈ cs, ∀ e, c = Node.element e →
          UMap.count m e.getTagName = true) ∧
        cs.Pairwise (NoClash m) ∧
        (∀ c ∈ cs, ∀ e, c = Node.element e → UMap.count m e.getTagName = true →
          UMap.count r e.getTagName = false) ∧
        r' = r ++ listedElems m cs := by
  induction cs with
  | nil =>
    intro r r'
    rw [GetSubsectionElements.loop, listedElems, List.append_nil]
    constructor
    · intro h
      cases h
      exact ⟨(fun c hc => by cases hc), Or.inr (fun c hc => by cases hc), List.Pairwise.nil,
        (fun c hc => by cases hc), rfl⟩
    · rintro ⟨_, _, _, _, h⟩
      rw [h]
  | cons c rest ih =>
    intro r r'
    simp only [List.forall_mem_cons, List.pairwise_cons]
    cases c with
    | other =>
      rw [GetSubsectionElements.loop, ih, listedElems]
      constructor
      · rintro ⟨hA, hB, hC, hD, hr⟩
        refine ⟨⟨?_, hA⟩, ?_, ⟨?_, hC⟩, ⟨?_, hD⟩, hr⟩
        · rintro data (h | h) <;> cases h
        · rcases hB with hB | hB
          · exact Or.inl hB
          · exact Or.inr ⟨(fun e h => by cases h), hB⟩
        · intro b _ e1 e2 h; cases h
        · intro e h; cases h
      · rintro ⟨⟨_, hA⟩, hB, ⟨_, hC⟩, ⟨_, hD⟩, hr⟩
        refine ⟨hA, ?_, hC, hD, hr⟩
        rcases hB with hB | hB
        · exact Or.inl hB
        · exact Or.inr hB.2
    | text d =>
      rw [GetSubsectionElements.loop, listedElems]
      by_cases hw : IsAllWhitespace d = true
      · simp only [hw, Bool.not_true, Bool.false_eq_true, if_false, ih]
        constructor
        · rintro ⟨hA, hB, hC, hD, hr⟩
          refine ⟨⟨?_, hA⟩, ?_, ⟨?_, hC⟩, ⟨?_, hD⟩, hr⟩
          · rintro data (h | h)
            · cases h; exact hw
            · cases h
          · rcases hB with hB | hB
            · exact Or.inl hB
            · exact Or.inr ⟨(fun e h => by cases h), hB⟩
          · intro b _ e1 e2 h; cases h
          · intro e h; cases h
        · rintro ⟨⟨_, hA⟩, hB, ⟨_, hC⟩, ⟨_, hD⟩, hr⟩
          refine ⟨hA, ?_, hC, hD, hr⟩
          rcases hB with hB | hB
          · exact Or.inl hB
          · exact Or.inr hB.2
      · have hw' : IsAllWhitespace d = false := by simpa using hw
        simp only [hw', Bool.not_false, if_true]
        constructor
        · intro h; cases h
        · rintro ⟨⟨h, _⟩, _⟩
          exact absurd (h d (Or.inl rfl)) hw
    | cdata d =>
      rw [GetSubsectionElements.loop, listedElems]
      by_cases hw : IsAllWhitespace d = true
      · simp only [hw, Bool.not_true, Bool.false_eq_true, if_false, ih]
        constructor
        · rintro ⟨hA, hB, hC, hD, hr⟩
          refine ⟨⟨?_, hA⟩, ?_, ⟨?_, hC⟩, ⟨?_, hD⟩, hr⟩
          · rintro data (h | h)
            · cases h
            · cases h; exact hw
          · rcases hB with hB | hB
            · exact Or.inl hB
            · exact Or.inr ⟨(fun e h => by cases h), hB⟩
          · intro b _ e1 e2 h; cases h
          · intro e h; cases h
        · rintro ⟨⟨_, hA⟩, hB, ⟨_, hC⟩, ⟨_, hD⟩, hr⟩
          refine ⟨hA, ?_, hC, hD, hr⟩
          rcases hB with hB | hB
          · exact Or.inl hB
          · exact Or.inr hB.2
      · have hw' : IsAllWhitespace d = false := by simpa using hw
        simp only [hw', Bool.not_false, if_true]
        constructor
        · intro h; cases h
        · rintro ⟨⟨h, _⟩, _⟩
          exact absurd (h d (Or.inr rfl)) hw
    | element e =>
      rw [GetSubsectionElements.loop, listedElems]
      by_cases hc : UMap.count m e.getTagName = true
      · by_cases hr : UMap.count r e.getTagName = true
        · simp only [hc, if_true, UMap.insert, hr, Bool.not_false]
          constructor
          · intro h; cases h
          · rintro ⟨_, _, _, ⟨h, _⟩, _⟩
            have := h e rfl hc
            rw [hr] at this; cases this
        · have hr' : UMap.count r e.getTagName = false := by simpa using hr
          simp only [hc, if_true, UMap.insert, hr', Bool.false_eq_true, if_false, Bool.not_true,
            ih, List.append_assoc, List.singleton_append]
          constructor
          · rintro ⟨hA, hB, hC, hD, hres⟩
            refine ⟨⟨?_, hA⟩, ?_, ⟨?_, hC⟩, ⟨?_, ?_⟩, hres⟩
            · rintro data (h | h) <;> cases h
            · rcases hB with hB | hB
              · exact Or.inl hB
              · exact Or.inr ⟨(fun e' h => by cases h; exact hc), hB⟩
            · intro b hb e1 e2 h1 h2 ht
              cases h1
              have := hD b hb e2 h2 (ht ▸ hc)
              rw [UMap.count_append, Bool.or_eq_false_iff] at this
              have h3 : UMap.count [(e.getTagName, e)] e2.getTagName = true := by
                rw [UMap.count_iff]; simp [ht]
              rw [h3] at this
              cases this.2
            · intro e' h _; cases h; exact hr'
            · intro c hcm e' he' hl
              have := hD c hcm e' he' hl
              rw [UMap.count_append, Bool.or_eq_false_iff] at this
              exact this.1
          · rintro ⟨⟨_, hA⟩, hB, ⟨hN, hC⟩, ⟨_, hD⟩, hres⟩
            refine ⟨hA, ?_, hC, ?_, hres⟩
            · rcases hB with hB | hB
              · exact Or.inl hB
              · exact Or.inr hB.2
            · intro c hcm e' he' hl
              rw [UMap.count_append, Bool.or_eq_false_iff]
              refine ⟨hD c hcm e' he' hl, ?_⟩
              by_contra hcon
              have hcon' : UMap.count [(e.getTagName, e)] e'.getTagName = true := by
                simpa using hcon
              rw [UMap.count_iff] at hcon'
              have ht : e.getTagName = e'.getTagName := by
                simpa [eq_comm] using hcon'
              have := hN c hcm e e' rfl he' ht
              rw [hc] at this; cases this
      · have hc' : UMap.count m e.getTagName = false := by simpa using hc
        cases allow with
        | false =>
          simp only [hc', Bool.false_eq_true, if_false, Bool.not_false, if_true]
          constructor
          · intro h; cases h
          · rintro ⟨_, hB, _⟩
            rcases hB with hB | hB
            · cases hB
            · exact absurd (hB.1 e rfl) hc
        | true =>
          simp only [hc', Bool.false_eq_true, if_false, Bool.not_true, ih]
          constructor
          · rintro ⟨hA, _, hC, hD, hres⟩
            refine ⟨⟨?_, hA⟩, Or.inl trivial, ⟨?_, hC⟩, ⟨?_, hD⟩, hres⟩
            · rintro data (h | h) <;> cases h
            · intro b _ e1 e2 h1 _ _; cases h1; exact hc'
            · intro e' h hl; cases h; exact absurd hl hc
          · rintro ⟨⟨_, hA⟩, _, ⟨_, hC⟩, ⟨_, hD⟩, hres⟩
            exact ⟨hA, Or.inl trivial, hC, hD, hres⟩

theorem checkRequired_ok_iff (parent : DOMElement) (result : UMap DOMElement)
    (vec : List (List Char × Bool)) :
    GetSubsectionElements.checkRequired parent result vec = .ok () ↔
      ∀ name, (name, true) ∈ vec → UMap.count result name = true := by
  induction vec with
  | nil =>
    rw [GetSubsectionElements.checkRequired]
    exact ⟨(fun _ name h => by cases h), fun _ => rfl⟩
  | cons item rest ih =>
    rw [GetSubsectionElements.checkRequired]
    obtain ⟨n, b⟩ := item
    by_cases h : (b && !UMap.count result n) = true
    · rw [if_pos h]
      rw [Bool.and_eq_true, Bool.not_eq_true'] at h
      constructor
      · intro hc; cases hc
      · intro hall
        have := hall n (by rw [h.1]; exact List.mem_cons_self _ _)
        rw [h.2] at this; cases this
    · rw [if_neg h, ih]
      constructor
      · intro hall name hmem
        rcases List.mem_cons.mp hmem with heq | hmem
        · cases heq
          by_contra hcon
          apply h
          rw [Bool.and_eq_true, Bool.not_eq_true']
          exact ⟨rfl, by simpa using hcon⟩
        · exact hall name hmem
      · intro hall name hmem
        exact hall name (List.mem_cons_of_mem _ hmem)

theorem pairwise_NoClash_iff (m : UMap Bool) (cs : List (Node DOMElement)) :
    cs.Pairwise (NoClash m) ↔
      ∀ (i j : Nat) (e1 e2 : DOMElement), i < j → cs[i]? = some (Node.element e1) →
        cs[j]? = some (Node.element e2) → e1.getTagName = e2.getTagName →
        UMap.count m e1.getTagName = false := by
  rw [List.pairwise_iff_getElem]
  constructor
  · intro h i j e1 e2 hij h1 h2 ht
    obtain ⟨hi, h1⟩ := List.getElem?_eq_some.mp h1
    obtain ⟨hj, h2⟩ := List.getElem?_eq_some.mp h2
    exact h i j hi hj hij e1 e2 h1 h2 ht
  · intro h i j hi hj hij e1 e2 h1 h2 ht
    exact h i j e1 e2 hij (List.getElem?_eq_some.mpr ⟨hi, h1⟩)
      (List.getElem?_eq_some.mpr ⟨hj, h2⟩) ht

theorem listedElems_count (m : UMap Bool) (cs : List (Node DOMElement)) (n : List Char) :
    UMap.count (listedElems m cs) n = true ↔
      UMap.count m n = true ∧ ∃ e, Node.element e ∈ cs ∧ e.getTagName = n := by
  rw [UMap.count_iff, List.mem_map]
  constructor
  · rintro ⟨⟨n', e⟩, hmem, rfl⟩
    obtain ⟨h1, h2, h3⟩ := (listedElems_mem m cs n' e).mp hmem
    exact ⟨h3, e, h1, h2⟩
  · rintro ⟨h3, e, h1, h2⟩
    exact ⟨(n, e), (listedElems_mem m cs n e).mpr ⟨h1, h2, h3⟩, rfl⟩

/-- Success of `GetSubsectionElements` in terms of its loop invariant: the
result is the list of listed element children and the four conditions hold. -/
theorem GetSubsectionElements_ok (parent : DOMElement) (vec : List (List Char × Bool))
    (allow : Bool) (result : UMap DOMElement) :
    GetSubsectionElements parent vec allow = .ok result ↔
      (∀ c ∈ parent.children, ∀ data, (c = Node.text data ∨ c = Node.cdata data) →
        IsAllWhitespace data = true) ∧
      (allow = true ∨ ∀ c ∈ parent.children, ∀ e, c = Node.element e →
        UMap.count (GetSubsectionElements.buildMap vec) e.getTagName = true) ∧
      parent.children.Pairwise (NoClash (GetSubsectionElements.buildMap vec)) ∧
      (∀ name, (name, true) ∈ vec → UMap.count result name = true) ∧
      result = listedElems (GetSubsectionElements.buildMap vec) parent.children := by
  unfold GetSubsectionElements
  constructor
  · intro h
    cases hl : GetSubsectionElements.loop (GetSubsectionElements.buildMap vec) allow
        parent.children [] with
    | error x => simp only [hl] at h; cases h
    | ok r =>
      simp only [hl] at h
      cases hq : GetSubsectionElements.checkRequired parent r vec with
      | error x => simp only [hq] at h; cases h
      | ok u =>
        simp only [hq] at h
        cases h
        obtain ⟨hA, hB, hC, _, hres⟩ := (loop_ok_iff _ _ _ _ _).mp hl
        rw [List.nil_append] at hres
        exact ⟨hA, hB, hC, (checkRequired_ok_iff parent _ vec).mp hq, hres⟩
  · rintro ⟨hA, hB, hC, hD, hres⟩
    have hl : GetSubsectionElements.loop (GetSubsectionElements.buildMap vec) allow
        parent.children [] = .ok result := by
      rw [loop_ok_iff]
      refine ⟨hA, hB, hC, ?_, by rw [List.nil_append]; exact hres⟩
      intro c _ e _ _
      rfl
    have hq := (checkRequired_ok_iff parent result vec).mpr hD
    simp only [hl, hq]

theorem loop_skip_other (m : UMap Bool) (allow : Bool) (pre post : List (Node DOMElement)) :
    ∀ r, GetSubsectionElements.loop m allow (pre ++ Node.other :: post) r =
      GetSubsectionElements.loop m allow (pre ++ post) r := by
  induction pre with
  | nil => intro r; rw [List.nil_append, List.nil_append, GetSubsectionElements.loop]
  | cons c rest ih =>
    intro r
    cases c with
    | other =>
      rw [List.cons_append, List.cons_append, GetSubsectionElements.loop,
        GetSubsectionElements.loop, ih]
    | text d =>
      rw [List.cons_append, List.cons_append, GetSubsectionElements.loop,
        GetSubsectionElements.loop, ih]
    | cdata d =>
      rw [List.cons_append, List.cons_append, GetSubsectionElements.loop,
        GetSubsectionElements.loop, ih]
    | element e =>
      rw [List.cons_append, List.cons_append, GetSubsectionElements.loop,
        GetSubsectionElements.loop]
      simp only [ih]

theorem UMap.find_some_mem {V : Type} (m : UMap V) (k : List Char) (v : V)
    (h : UMap.find m k = some v) : (k, v) ∈ m := by
  unfold UMap.find at h
  cases hf : List.find? (fun kv => decide (kv.1 = k)) m with
  | none => rw [hf] at h; cases h
  | some kv =>
    rw [hf] at h
    have hp := @List.find?_some _ (fun kv : List Char × V => decide (kv.1 = k)) kv m hf
    have hk : kv.1 = k := of_decide_eq_true hp
    have hm := List.mem_of_find?_eq_some hf
    cases h
    rw [← hk]
    exact hm

theorem UMap.count_find {V : Type} (m : UMap V) (k : List Char)
    (h : UMap.count m k = true) : ∃ v, UMap.find m k = some v := by
  unfold UMap.find
  cases hf : List.find? (fun kv => decide (kv.1 = k)) m with
  | none =>
    rw [List.find?_eq_none] at hf
    unfold UMap.count at h
    obtain ⟨x, hx, hp⟩ := List.any_eq_true.mp h
    exact absurd hp (hf x hx)
  | some kv => exact ⟨kv.2, rfl⟩

/-- C2: `GetSubsectionElements` returns without throwing if and only if
(a) every text or CDATA child of `parent` consists only of whitespace,
(b) `allow_unknown_subsection` is true or every element child's tag name is a
name of `subsection_vec`, (c) no two element children share a tag name listed in
`subsection_vec`, and (d) every name marked required in `subsection_vec` is the
tag name of some element child.  Children of other node types never matter:
removing one changes no successful result and causes no failure. -/
theorem GetSubsectionElements_returns_iff (parent : DOMElement)
    (subsection_vec : List (List Char × Bool)) (allow_unknown_subsection : Bool) :
    ((∃ result, GetSubsectionElements parent subsection_vec allow_unknown_subsection =
        .ok result) ↔
      (∀ data, (Node.text data ∈ parent.children ∨ Node.cdata data ∈ parent.children) →
        ∀ c ∈ data, isspace c = true) ∧
      (allow_unknown_subsection = true ∨
        ∀ e, Node.element e ∈ parent.children →
          e.getTagName ∈ subsection_vec.map Prod.fst) ∧
      (∀ (i j : Nat) (e1 e2 : DOMElement), i < j →
        parent.children[i]? = some (Node.element e1) →
        parent.children[j]? = some (Node.element e2) →
        e1.getTagName = e2.getTagName → e1.getTagName ∉ subsection_vec.map Prod.fst) ∧
      (∀ name, (name, true) ∈ subsection_vec →
        ∃ e, Node.element e ∈ parent.children ∧ e.getTagName = name)) ∧
    (∀ tag attrs pre post result,
      GetSubsectionElements (DOMElement.mk tag attrs (pre ++ Node.other :: post))
          subsection_vec allow_unknown_subsection = .ok result ↔
        GetSubsectionElements (DOMElement.mk tag attrs (pre ++ post))
          subsection_vec allow_unknown_subsection = .ok result) := by
  constructor
  · constructor
    · rintro ⟨result, h⟩
      obtain ⟨hA, hB, hC, hD, hres⟩ := (GetSubsectionElements_ok _ _ _ _).mp h
      refine ⟨?_, ?_, ?_, ?_⟩
      · rintro data (hd | hd)
        · exact (IsAllWhitespace_iff data).mp (hA _ hd data (Or.inl rfl))
        · exact (IsAllWhitespace_iff data).mp (hA _ hd data (Or.inr rfl))
      · rcases hB with hB | hB
        · exact Or.inl hB
        · exact Or.inr (fun e he => (buildMap_count _ _).mp (hB _ he e rfl))
      · intro i j e1 e2 hij h1 h2 ht hmem
        have := (pairwise_NoClash_iff _ _).mp hC i j e1 e2 hij h1 h2 ht
        rw [(buildMap_count _ _).mpr hmem] at this
        cases this
      · intro name hn
        have := hD name hn
        rw [hres, listedElems_count] at this
        exact this.2
    · rintro ⟨hA, hB, hC, hD⟩
      refine ⟨listedElems (GetSubsectionElements.buildMap subsection_vec) parent.children, ?_⟩
      rw [GetSubsectionElements_ok]
      refine ⟨?_, ?_, ?_, ?_, rfl⟩
      · rintro c hc data (hd | hd)
        · subst hd; exact (IsAllWhitespace_iff data).mpr (hA data (Or.inl hc))
        · subst hd; exact (IsAllWhitespace_iff data).mpr (hA data (Or.inr hc))
      · rcases hB with hB | hB
        · exact Or.inl hB
        · refine Or.inr (fun c hc e he => ?_)
          subst he
          exact (buildMap_count _ _).mpr (hB e hc)
      · rw [pairwise_NoClash_iff]
        intro i j e1 e2 hij h1 h2 ht
        have := hC i j e1 e2 hij h1 h2 ht
        rw [← buildMap_count] at this
        simpa using this
      · intro name hn
        rw [listedElems_count]
        refine ⟨(buildMap_count _ _).mpr ?_, hD name hn⟩
        exact List.mem_map.mpr ⟨(name, true), hn, rfl⟩
  · intro tag attrs pre post result
    unfold GetSubsectionElements
    simp only [DOMElement.children, loop_skip_other]
    cases GetSubsectionElements.loop (GetSubsectionElements.buildMap subsection_vec)
        allow_unknown_subsection (pre ++ post) [] with
    | error x => simp
    | ok r =>
      simp only
      have h1 := checkRequired_ok_iff (DOMElement.mk tag attrs (pre ++ Node.other :: post)) r
        subsection_vec
      have h2 := checkRequired_ok_iff (DOMElement.mk tag attrs (pre ++ post)) r
        subsection_vec
      cases hq1 : GetSubsectionElements.checkRequired
          (DOMElement.mk tag attrs (pre ++ Node.other :: post)) r subsection_vec with
      | error x =>
        cases hq2 : GetSubsectionElements.checkRequired
            (DOMElement.mk tag attrs (pre ++ post)) r subsection_vec with
        | error y => simp
        | ok u =>
          have := h1.mpr (h2.mp hq2)
          rw [hq1] at this; cases this
      | ok u =>
        have := h2.mpr (h1.mp hq1)
        rw [this]

/-- C3: when `GetSubsectionElements` returns `result`, the keys of `result` are
exactly the names of `subsection_vec` that are the tag name of some element
child of `parent`; every key has a value, and the value stored under a key is
an element child with that tag name, the only child position holding an element
of that name; every name marked required is a key; and an element child whose
name is not listed is neither a key nor a value of the map. -/
theorem GetSubsectionElements_result (parent : DOMElement)
    (subsection_vec : List (List Char × Bool)) (allow_unknown_subsection : Bool)
    (result : UMap DOMElement)
    (h : GetSubsectionElements parent subsection_vec allow_unknown_subsection = .ok result) :
    (∀ name, UMap.count result name = true ↔
      (name ∈ subsection_vec.map Prod.fst ∧
        ∃ e, Node.element e ∈ parent.children ∧ e.getTagName = name)) ∧
    (∀ name, UMap.count result name = true → ∃ e, UMap.find result name = some e) ∧
    (∀ name e, UMap.find result name = some e →
      e.getTagName = name ∧
      ∃ i, parent.children[i]? = some (Node.element e) ∧
        ∀ (j : Nat) (e' : DOMElement), parent.children[j]? = some (Node.element e') →
          e'.getTagName = name → j = i) ∧
    (∀ name, (name, true) ∈ subsection_vec → UMap.count result name = true) ∧
    (∀ e, Node.element e ∈ parent.children → e.getTagName ∉ subsection_vec.map Prod.fst →
      UMap.count result e.getTagName = false ∧ ∀ name, UMap.find result name ≠ some e) := by
  obtain ⟨_, _, hC, hD, hres⟩ := (GetSubsectionElements_ok _ _ _ _).mp h
  have hkeys : ∀ name, UMap.count result name = true ↔
      (name ∈ subsection_vec.map Prod.fst ∧
        ∃ e, Node.element e ∈ parent.children ∧ e.getTagName = name) := by
    intro name
    rw [hres, listedElems_count, buildMap_count]
  have hval : ∀ name e, UMap.find result name = some e →
      Node.element e ∈ parent.children ∧ e.getTagName = name ∧
        name ∈ subsection_vec.map Prod.fst := by
    intro name e hf
    have hm := UMap.find_some_mem result name e hf
    rw [hres, listedElems_mem, buildMap_count] at hm
    exact hm
  refine ⟨hkeys, fun name hc => UMap.count_find result name hc, ?_, hD, ?_⟩
  · intro name e hf
    obtain ⟨hmem, htag, hlisted⟩ := hval name e hf
    refine ⟨htag, ?_⟩
    obtain ⟨i, hi⟩ := List.getElem?_of_mem hmem
    refine ⟨i, hi, ?_⟩
    intro j e' hj htag'
    have hidx := (pairwise_NoClash_iff _ _).mp hC
    have hcount : UMap.count (GetSubsectionElements.buildMap subsection_vec) name = true :=
      (buildMap_count _ _).mpr hlisted
    rcases Nat.lt_trichotomy j i with hlt | heq | hgt
    · have := hidx j i e' e hlt hj hi (htag'.trans htag.symm)
      rw [htag', hcount] at this
      cases this
    · exact heq
    · have := hidx i j e e' hgt hi hj (htag.trans htag'.symm)
      rw [htag, hcount] at this
      cases this
  · intro e _ hnot
    constructor
    · cases hc : UMap.count result e.getTagName with
      | false => rfl
      | true => exact absurd ((hkeys _).mp hc).1 hnot
    · intro name hf
      obtain ⟨_, htag, hlisted⟩ := hval name e hf
      rw [← htag] at hlisted
      exact hnot hlisted

theorem GetSubsectionElements_result_witness :
    GetSubsectionElements
        (DOMElement.mk ['r'] []
          [Node.text [' '], Node.element (DOMElement.mk ['a'] [] []), Node.other,
            Node.element (DOMElement.mk ['b'] [] [])])
        [(['a'], true), (['c'], false)] true =
      .ok [(['a'], DOMElement.mk ['a'] [] [])] ∧
    UMap.count [(['a'], DOMElement.mk ['a'] [] [])] ['a'] = true ∧
    UMap.count [(['a'], DOMElement.mk ['a'] [] [])] ['b'] = false :=
  ⟨rfl,
   (GetSubsectionElements_result
      (DOMElement.mk ['r'] []
        [Node.text [' '], Node.element (DOMElement.mk ['a'] [] []), Node.other,
          Node.element (DOMElement.mk ['b'] [] [])])
      [(['a'], true), (['c'], false)] true _ rfl).2.2.2.1 ['a'] (by decide),
   (GetSubsectionElements_result
      (DOMElement.mk ['r'] []
        [Node.text [' '], Node.element (DOMElement.mk ['a'] [] []), Node.other,
          Node.element (DOMElement.mk ['b'] [] [])])
      [(['a'], true), (['c'], false)] true _ rfl).2.2.2.2 (DOMElement.mk ['b'] [] [])
        (by simp [DOMElement.children]) (by decide) |>.1⟩

/-! ## String and boolean attributes -/

theorem Char_toNat_inj (a b : Char) (h : a.toNat = b.toNat) : a = b := by
  apply Char.ext
  apply UInt32.ext
  exact h

theorem strcmp_eq_zero_iff (a b : List Char) : strcmp a b = 0 ↔ cstr a = cstr b := by
  induction a generalizing b with
  | nil =>
    cases b with
    | nil => simp [strcmp, cstr]
    | cons y ys =>
      by_cases hy : y.toNat = 0
      · simp [strcmp, cstr, hy]
      · simp [strcmp, cstr, hy]
  | cons x xs ih =>
    cases b with
    | nil =>
      by_cases hx : x.toNat = 0
      · simp [strcmp, cstr, hx]
      · simp [strcmp, cstr, hx]
    | cons y ys =>
      by_cases hxy : x = y
      · subst hxy
        by_cases hx : x.toNat = 0
        · simp [strcmp, cstr, hx]
        · simp [strcmp, cstr, hx, ih]
      · have hne : x.toNat ≠ y.toNat := fun h => hxy (Char_toNat_inj x y h)
        have hsub : (x.toNat : Int) - (y.toNat : Int) ≠ 0 := by omega
        by_cases hx : x.toNat = 0
        · have hy : y.toNat ≠ 0 := by omega
          simp [strcmp, cstr, hxy, hx, hy, hsub]
        · by_cases hy : y.toNat = 0
          · simp [strcmp, cstr, hxy, hx, hy, hsub]
          · simp [strcmp, cstr, hxy, hx, hy, hsub]

theorem strcasecmp_eq_zero_iff (a b : List Char) :
    strcasecmp a b = 0 ↔ cstr (a.map tolower) = cstr (b.map tolower) := by
  induction a generalizing b with
  | nil =>
    cases b with
    | nil => simp [strcasecmp, cstr]
    | cons y ys =>
      by_cases hy : (tolower y).toNat = 0
      · simp [strcasecmp, cstr, hy]
      · simp [strcasecmp, cstr, hy]
  | cons x xs ih =>
    cases b with
    | nil =>
      by_cases hx : (tolower x).toNat = 0
      · simp [strcasecmp, cstr, hx]
      · simp [strcasecmp, cstr, hx]
    | cons y ys =>
      by_cases hxy : tolower x = tolower y
      · by_cases hx : (tolower x).toNat = 0
        · have hy : (tolower y).toNat = 0 := by rw [← hxy]; exact hx
          simp [strcasecmp, cstr, hxy, hy]
        · have hy : (tolower y).toNat ≠ 0 := by rw [← hxy]; exact hx
          simp [strcasecmp, cstr, hxy, hy, ih]
      · have hne : (tolower x).toNat ≠ (tolower y).toNat :=
          fun h => hxy (Char_toNat_inj _ _ h)
        have hsub : ((tolower x).toNat : Int) - ((tolower y).toNat : Int) ≠ 0 := by omega
        by_cases hx : (tolower x).toNat = 0
        · have hy : (tolower y).toNat ≠ 0 := by omega
          simp [strcasecmp, cstr, hxy, hx, hy, hsub]
        · by_cases hy : (tolower y).toNat = 0
          · simp [strcasecmp, cstr, hxy, hx, hy, hsub]
          · simp [strcasecmp, cstr, hxy, hx, hy, hsub]

theorem compare_fn_eq_zero_iff (case_sensitive : Bool) (a b : List Char) :
    compare_fn case_sensitive a b = 0 ↔
      compareKey case_sensitive a = compareKey case_sensitive b := by
  cases case_sensitive with
  | true => simp only [compare_fn, compareKey, if_true]; exact strcmp_eq_zero_iff a b
  | false =>
    simp only [compare_fn, compareKey, Bool.false_eq_true, if_false]
    exact strcasecmp_eq_zero_iff a b

/-- What `trim` does, stated without reference to its implementation: it
removes a run of whitespace from each end and what is left neither begins nor
ends with whitespace. -/
theorem trim_spec (s : List Char) :
    ∃ l r, s = l ++ trim s ++ r ∧ (∀ x ∈ l, isspace x = true) ∧ (∀ x ∈ r, isspace x = true) ∧
      ∀ h : trim s ≠ [],
        isspace ((trim s).head h) = false ∧ isspace ((trim s).getLast h) = false := by
  obtain ⟨r, hr, hrall, hrlast⟩ := trim_right_spec s
  refine ⟨(trim_right s).takeWhile isspace, r, ?_, ?_, hrall, ?_⟩
  · have h := List.takeWhile_append_dropWhile isspace (trim_right s)
    unfold trim trim_left
    rw [h]
    exact hr
  · intro x hx
    exact List.mem_takeWhile_imp hx
  · intro h
    refine ⟨List.head_dropWhile_not isspace (trim_right s) h, ?_⟩
    have hsplit := List.takeWhile_append_dropWhile isspace (trim_right s)
    have hne : trim_right s ≠ [] := by
      intro hnil
      apply h
      unfold trim trim_left
      rw [hnil]
      rfl
    have hl := hrlast hne
    have hlast : (trim_right s).getLast hne = (trim s).getLast h := by
      have h2 : (List.takeWhile isspace (trim_right s) ++ trim s).getLast
          (List.append_ne_nil_of_right_ne_nil _ h) = (trim s).getLast h :=
        List.getLast_append' _ _ h
      rw [← h2]
      congr 1
      exact hsplit.symm
    rw [← hlast]
    exact hl

theorem trim_eq_nil_of_all_space (s : List Char) (h : ∀ c ∈ s, isspace c = true) :
    trim s = [] := by
  have h1 : trim_right s = [] := List.rdropWhile_eq_nil_iff.mpr h
  unfold trim trim_left
  rw [h1]
  rfl

/-- C6: `GetString` throws if and only if the attribute is absent, or
`THROW_IF_EMPTY` is set and the value is empty after the trimming `opts`
request, and what it throws is `TMissingAttrValue`; in every other case it
returns the attribute value, trimmed at both ends exactly when
`TRIM_WHITESPACE` is set.  So a non-empty value made of whitespace only is
returned unchanged under `THROW_IF_EMPTY` alone and is rejected under
`THROW_IF_EMPTY | TRIM_WHITESPACE`. -/
theorem GetString_contract (elem : DOMElement) (attr_name : List Char) (opts : Nat) :
    ((∃ x, GetString elem attr_name opts = .error x) ↔
      (elem.getAttributeNode attr_name = none ∨
        (hasOpt opts THROW_IF_EMPTY = true ∧
          ∃ value, elem.getAttributeNode attr_name = some value ∧
            (if hasOpt opts TRIM_WHITESPACE = true then trim value else value) = []))) ∧
    (∀ x, GetString elem attr_name opts = .error x →
      x = TXmlError.TMissingAttrValue elem attr_name) ∧
    (∀ value, elem.getAttributeNode attr_name = some value →
      ¬ (hasOpt opts THROW_IF_EMPTY = true ∧
          (if hasOpt opts TRIM_WHITESPACE = true then trim value else value) = []) →
      GetString elem attr_name opts =
        .ok (if hasOpt opts TRIM_WHITESPACE = true then trim value else value)) ∧
    (∀ value, elem.getAttributeNode attr_name = some value → value ≠ [] →
      (∀ c ∈ value, isspace c = true) →
      GetString elem attr_name THROW_IF_EMPTY = .ok value ∧
      GetString elem attr_name (THROW_IF_EMPTY ||| TRIM_WHITESPACE) =
        .error (TXmlError.TMissingAttrValue elem attr_name)) := by
  refine ⟨?_, ?_, ?_, ?_⟩
  · unfold GetString
    cases hattr : elem.getAttributeNode attr_name with
    | none => simp
    | some value =>
      by_cases ht : hasOpt opts THROW_IF_EMPTY = true
      · by_cases he : (if hasOpt opts TRIM_WHITESPACE = true then trim value else value) = []
        · simp [ht, he]
        · simp [ht, he]
      · simp [ht]
  · intro x hx
    unfold GetString at hx
    cases hattr : elem.getAttributeNode attr_name with
    | none => rw [hattr] at hx; cases hx; rfl
    | some value =>
      rw [hattr] at hx
      simp only at hx
      by_cases hc : (hasOpt opts THROW_IF_EMPTY &&
          (if hasOpt opts TRIM_WHITESPACE = true then trim value else value).isEmpty) = true
      · rw [if_pos hc] at hx; cases hx; rfl
      · rw [if_neg hc] at hx; cases hx
  · intro value hattr hnot
    unfold GetString
    rw [hattr]
    simp only
    rw [if_neg]
    intro hc
    rw [Bool.and_eq_true] at hc
    exact hnot ⟨hc.1, List.isEmpty_iff.mp hc.2⟩
  · intro value hattr hne hall
    constructor
    · unfold GetString
      rw [hattr]
      have h1 : hasOpt THROW_IF_EMPTY TRIM_WHITESPACE = false := by decide
      have h2 : value.isEmpty = false := by
        cases value with
        | nil => exact absurd rfl hne
        | cons c cs => rfl
      simp [h1, h2]
    · unfold GetString
      rw [hattr]
      have h1 : hasOpt (THROW_IF_EMPTY ||| TRIM_WHITESPACE) TRIM_WHITESPACE = true := by decide
      have h2 : hasOpt (THROW_IF_EMPTY ||| TRIM_WHITESPACE) THROW_IF_EMPTY = true := by decide
      simp [h1, h2, trim_eq_nil_of_all_space value hall]

theorem GetString_trim_throw_none (elem : DOMElement) (attr_name : List Char)
    (h : elem.getAttributeNode attr_name = none) :
    GetString elem attr_name (TRIM_WHITESPACE ||| THROW_IF_EMPTY) =
      .error (TXmlError.TMissingAttrValue elem attr_name) := by
  unfold GetString
  rw [h]

theorem GetString_trim_throw_some (elem : DOMElement) (attr_name value : List Char)
    (h : elem.getAttributeNode attr_name = some value) :
    GetString elem attr_name (TRIM_WHITESPACE ||| THROW_IF_EMPTY) =
      if trim value = [] then .error (TXmlError.TMissingAttrValue elem attr_name)
      else .ok (trim value) := by
  unfold GetString
  rw [h]
  have h1 : hasOpt (TRIM_WHITESPACE ||| THROW_IF_EMPTY) TRIM_WHITESPACE = true := by decide
  have h2 : hasOpt (TRIM_WHITESPACE ||| THROW_IF_EMPTY) THROW_IF_EMPTY = true := by decide
  simp only [h1, h2, if_true, Bool.true_and, List.isEmpty_iff]

theorem StringToBool_spec (s true_value false_value : List Char) (case_sensitive : Bool)
    (elem : DOMElement) (attr_name : List Char)
    (hdist : compare_fn case_sensitive true_value false_value ≠ 0) :
    (StringToBool s true_value false_value case_sensitive elem attr_name = .ok true ↔
      compare_fn case_sensitive s true_value = 0) ∧
    (StringToBool s true_value false_value case_sensitive elem attr_name = .ok false ↔
      compare_fn case_sensitive s false_value = 0) ∧
    (compare_fn case_sensitive s true_value ≠ 0 → compare_fn case_sensitive s false_value ≠ 0 →
      StringToBool s true_value false_value case_sensitive elem attr_name =
        .error (TXmlError.TInvalidBoolAttr elem attr_name s true_value false_value)) := by
  have hexcl : compare_fn case_sensitive s true_value = 0 →
      compare_fn case_sensitive s false_value = 0 → False := by
    intro h1 h2
    apply hdist
    rw [compare_fn_eq_zero_iff] at h1 h2 ⊢
    rw [← h1, h2]
  unfold StringToBool
  by_cases ht : compare_fn case_sensitive s true_value = 0
  · have hf : compare_fn case_sensitive s false_value ≠ 0 := fun h => hexcl ht h
    simp [ht, hf]
  · by_cases hf : compare_fn case_sensitive s false_value = 0
    · simp [ht, hf]
    · simp [ht, hf]

/-- C5 (as stated, at an empty token): with `true_value` the empty string and
`false_value` the string `no`, which are distinct under the case-insensitive
comparison, and an attribute whose value is empty, the trimmed value equals
`true_value` under the comparison, yet `GetNamedBool` does not return true: it
throws `TMissingAttrValue`. -/
theorem GetNamedBool_empty_token_counterexample :
    compare_fn (hasOpt 0 CASE_SENSITIVE) [] ['n', 'o'] ≠ 0 ∧
    (DOMElement.mk ['e'] [(['f'], [])] []).getAttributeNode ['f'] = some [] ∧
    compare_fn (hasOpt 0 CASE_SENSITIVE) (trim []) [] = 0 ∧
    GetNamedBool (DOMElement.mk ['e'] [(['f'], [])] []) ['f'] [] ['n', 'o'] 0 =
      .error (TXmlError.TMissingAttrValue (DOMElement.mk ['e'] [(['f'], [])] []) ['f']) ∧
    GetNamedBool (DOMElement.mk ['e'] [(['f'], [])] []) ['f'] [] ['n', 'o'] 0 ≠ .ok true := by
  refine ⟨by decide, rfl, by decide, rfl, ?_⟩
  intro h
  have h2 : GetNamedBool (DOMElement.mk ['e'] [(['f'], [])] []) ['f'] [] ['n', 'o'] 0 =
      .error (TXmlError.TMissingAttrValue (DOMElement.mk ['e'] [(['f'], [])] []) ['f']) := rfl
  rw [h2] at h
  cases h

/-- C5 (amended): for tokens that are distinct under the comparison in effect
(`strcmp` when `CASE_SENSITIVE` is set, `strcasecmp` otherwise), `GetNamedBool`
throws `TMissingAttrValue` when the attribute is absent or its trimmed value is
empty; for a non-empty trimmed value it returns true exactly when that value
equals `true_value` under the comparison, returns false exactly when it equals
`false_value`, and throws `TInvalidBoolAttr` for any other value. -/
theorem GetNamedBool_contract (elem : DOMElement)
    (attr_name true_value false_value : List Char) (opts : Nat)
    (hdist : compare_fn (hasOpt opts CASE_SENSITIVE) true_value false_value ≠ 0) :
    (elem.getAttributeNode attr_name = none →
      GetNamedBool elem attr_name true_value false_value opts =
        .error (TXmlError.TMissingAttrValue elem attr_name)) ∧
    (∀ value, elem.getAttributeNode attr_name = some value →
      (trim value = [] →
        GetNamedBool elem attr_name true_value false_value opts =
          .error (TXmlError.TMissingAttrValue elem attr_name)) ∧
      (trim value ≠ [] →
        (GetNamedBool elem attr_name true_value false_value opts = .ok true ↔
          compare_fn (hasOpt opts CASE_SENSITIVE) (trim value) true_value = 0) ∧
        (GetNamedBool elem attr_name true_value false_value opts = .ok false ↔
          compare_fn (hasOpt opts CASE_SENSITIVE) (trim value) false_value = 0) ∧
        (compare_fn (hasOpt opts CASE_SENSITIVE) (trim value) true_value ≠ 0 →
          compare_fn (hasOpt opts CASE_SENSITIVE) (trim value) false_value ≠ 0 →
          GetNamedBool elem attr_name true_value false_value opts =
            .error (TXmlError.TInvalidBoolAttr elem attr_name (trim value)
              true_value false_value)))) := by
  constructor
  · intro h
    unfold GetNamedBool
    rw [GetString_trim_throw_none elem attr_name h]
  · intro value h
    constructor
    · intro hempty
      unfold GetNamedBool
      rw [GetString_trim_throw_some elem attr_name value h, if_pos hempty]
    · intro hne
      have hG : GetNamedBool elem attr_name true_value false_value opts =
          StringToBool (trim value) true_value false_value (hasOpt opts CASE_SENSITIVE)
            elem attr_name := by
        unfold GetNamedBool
        rw [GetString_trim_throw_some elem attr_name value h, if_neg hne]
      rw [hG]
      exact StringToBool_spec (trim value) true_value false_value _ elem attr_name hdist

theorem GetNamedBool_contract_witness :
    compare_fn (hasOpt 0 CASE_SENSITIVE) ['y', 'e', 's'] ['n', 'o'] ≠ 0 ∧
    GetNamedBool (DOMElement.mk ['e'] [(['f'], [' ', 'Y', 'e', 's', ' '])] []) ['f']
      ['y', 'e', 's'] ['n', 'o'] 0 = .ok true :=
  ⟨by decide,
   ((GetNamedBool_contract (DOMElement.mk ['e'] [(['f'], [' ', 'Y', 'e', 's', ' '])] []) ['f']
      ['y', 'e', 's'] ['n', 'o'] 0 (by decide)).2 [' ', 'Y', 'e', 's', ' '] rfl).2
        (by decide) |>.1.mpr (by decide)⟩

/-! ## Item lists -/

theorem elementChildren_eq_filter (cs : List (Node DOMElement)) :
    (elementChildren cs).map Node.element = cs.filter Node.isElement := by
  induction cs with
  | nil => rfl
  | cons c rest ih =>
    cases c with
    | element e => simp [elementChildren, Node.isElement, ih]
    | text d => simp [elementChildren, Node.isElement, ih]
    | cdata d => simp [elementChildren, Node.isElement, ih]
    | other => simp [elementChildren, Node.isElement, ih]

theorem item_loop_ok_iff (item_name : List Char) (cs : List (Node DOMElement)) :
    ∀ (r r' : List DOMElement),
      GetItemListElements.loop item_name cs r = .ok r' ↔
        (∀ c ∈ cs, GoodItem item_name c) ∧ r' = r ++ elementChildren cs := by
  induction cs with
  | nil =>
    intro r r'
    rw [GetItemListElements.loop, elementChildren, List.append_nil]
    constructor
    · intro h; cases h; exact ⟨(fun c hc => by cases hc), rfl⟩
    · rintro ⟨_, h⟩; rw [h]
  | cons c rest ih =>
    intro r r'
    rw [List.forall_mem_cons]
    cases c with
    | other =>
      rw [GetItemListElements.loop, ih, elementChildren]
      constructor
      · rintro ⟨h1, h2⟩
        exact ⟨⟨⟨(fun e h => by cases h), (fun d h => by rcases h with h | h <;> cases h)⟩, h1⟩, h2⟩
      · rintro ⟨⟨_, h1⟩, h2⟩
        exact ⟨h1, h2⟩
    | text d =>
      rw [GetItemListElements.loop, elementChildren]
      by_cases hw : IsAllWhitespace d = true
      · simp only [hw, Bool.not_true, Bool.false_eq_true, if_false, ih]
        constructor
        · rintro ⟨h1, h2⟩
          refine ⟨⟨⟨(fun e h => by cases h), ?_⟩, h1⟩, h2⟩
          rintro d' (h | h)
          · cases h; exact hw
          · cases h
        · rintro ⟨⟨_, h1⟩, h2⟩
          exact ⟨h1, h2⟩
      · have hw' : IsAllWhitespace d = false := by simpa using hw
        simp only [hw', Bool.not_false, if_true]
        constructor
        · intro h; cases h
        · rintro ⟨⟨⟨_, h⟩, _⟩, _⟩
          exact absurd (h d (Or.inl rfl)) hw
    | cdata d =>
      rw [GetItemListElements.loop, elementChildren]
      by_cases hw : IsAllWhitespace d = true
      · simp only [hw, Bool.not_true, Bool.false_eq_true, if_false, ih]
        constructor
        · rintro ⟨h1, h2⟩
          refine ⟨⟨⟨(fun e h => by cases h), ?_⟩, h1⟩, h2⟩
          rintro d' (h | h)
          · cases h
          · cases h; exact hw
        · rintro ⟨⟨_, h1⟩, h2⟩
          exact ⟨h1, h2⟩
      · have hw' : IsAllWhitespace d = false := by simpa using hw
        simp only [hw', Bool.not_false, if_true]
        constructor
        · intro h; cases h
        · rintro ⟨⟨⟨_, h⟩, _⟩, _⟩
          exact absurd (h d (Or.inr rfl)) hw
    | element e =>
      rw [GetItemListElements.loop, elementChildren]
      by_cases hn : e.getTagName = item_name
      · simp only [ne_eq, hn, not_true_eq_false, if_false, ih, List.append_assoc,
          List.singleton_append]
        constructor
        · rintro ⟨h1, h2⟩
          refine ⟨⟨⟨?_, (fun d h => by rcases h with h | h <;> cases h)⟩, h1⟩, h2⟩
          intro e' he'
          cases he'
          exact hn
        · rintro ⟨⟨_, h1⟩, h2⟩
          exact ⟨h1, h2⟩
      · simp only [ne_eq, hn, not_false_eq_true, if_true]
        constructor
        · intro h; cases h
        · rintro ⟨⟨⟨h, _⟩, _⟩, _⟩
          exact absurd (h e rfl) hn

theorem item_loop_error (item_name : List Char) (cs : List (Node DOMElement)) :
    ∀ (r : List DOMElement) (x : TXmlError),
      GetItemListElements.loop item_name cs r = .error x →
        ∃ pre bad post, cs = pre ++ bad :: post ∧ (∀ c ∈ pre, GoodItem item_name c) ∧
          ((∃ e, bad = Node.element e ∧ e.getTagName ≠ item_name ∧
              x = TXmlError.TUnexpectedElementName e item_name) ∨
            (∃ d, (bad = Node.text d ∨ bad = Node.cdata d) ∧ IsAllWhitespace d = false ∧
              x = TXmlError.TUnexpectedText bad)) := by
  induction cs with
  | nil =>
    intro r x h
    rw [GetItemListElements.loop] at h
    cases h
  | cons c rest ih =>
    intro r x h
    have step : ∀ r₂, GoodItem item_name c →
        GetItemListElements.loop item_name rest r₂ = .error x →
        ∃ pre bad post, c :: rest = pre ++ bad :: post ∧ (∀ c ∈ pre, GoodItem item_name c) ∧
          ((∃ e, bad = Node.element e ∧ e.getTagName ≠ item_name ∧
              x = TXmlError.TUnexpectedElementName e item_name) ∨
            (∃ d, (bad = Node.text d ∨ bad = Node.cdata d) ∧ IsAllWhitespace d = false ∧
              x = TXmlError.TUnexpectedText bad)) := by
      intro r₂ hgood hrest
      obtain ⟨pre, bad, post, hsplit, hpre, hbad⟩ := ih r₂ x hrest
      refine ⟨c :: pre, bad, post, ?_, ?_, hbad⟩
      · rw [hsplit]; rfl
      · intro c' hc'
        rcases List.mem_cons.mp hc' with h1 | h1
        · rw [h1]; exact hgood
        · exact hpre c' h1
    cases c with
    | other =>
      rw [GetItemListElements.loop] at h
      exact step r ⟨(fun e h => by cases h), (fun d h => by rcases h with h | h <;> cases h)⟩ h
    | text d =>
      rw [GetItemListElements.loop] at h
      by_cases hw : IsAllWhitespace d = true
      · simp only [hw, Bool.not_true, Bool.false_eq_true, if_false] at h
        refine step r ⟨(fun e h => by cases h), ?_⟩ h
        rintro d' (h' | h')
        · cases h'; exact hw
        · cases h'
      · have hw' : IsAllWhitespace d = false := by simpa using hw
        simp only [hw', Bool.not_false, if_true] at h
        cases h
        exact ⟨[], Node.text d, rest, rfl, (fun c hc => by cases hc),
          Or.inr ⟨d, Or.inl rfl, hw', rfl⟩⟩
    | cdata d =>
      rw [GetItemListElements.loop] at h
      by_cases hw : IsAllWhitespace d = true
      · simp only [hw, Bool.not_true, Bool.false_eq_true, if_false] at h
        refine step r ⟨(fun e h => by cases h), ?_⟩ h
        rintro d' (h' | h')
        · cases h'
        · cases h'; exact hw
      · have hw' : IsAllWhitespace d = false := by simpa using hw
        simp only [hw', Bool.not_false, if_true] at h
        cases h
        exact ⟨[], Node.cdata d, rest, rfl, (fun c hc => by cases hc),
          Or.inr ⟨d, Or.inr rfl, hw', rfl⟩⟩
    | element e =>
      rw [GetItemListElements.loop] at h
      by_cases hn : e.getTagName = item_name
      · simp only [ne_eq, hn, not_true_eq_false, if_false] at h
        refine step _ ⟨?_, (fun d h => by rcases h with h | h <;> cases h)⟩ h
        intro e' he'
        cases he'
        exact hn
      · simp only [ne_eq, hn, not_false_eq_true, if_true] at h
        cases h
        exact ⟨[], Node.element e, rest, rfl, (fun c hc => by cases hc),
          Or.inl ⟨e, rfl, hn, rfl⟩⟩

/-- C7: `GetItemListElements` succeeds if and only if every element child of
`parent` has tag name `item_name` and every text or CDATA child is all
whitespace; on success it returns exactly the element children of `parent`, in
document order, so its length is the number of element children.  When it
throws, the children before some child are all acceptable and that child is
either an element with another name, reported as `TUnexpectedElementName`, or a
text or CDATA node with non-whitespace text, reported as `TUnexpectedText`: the
exception is the one for the first offending child. -/
theorem GetItemListElements_contract (parent : DOMElement) (item_name : List Char) :
    ((∃ result, GetItemListElements parent item_name = .ok result) ↔
      ((∀ e, Node.element e ∈ parent.children → e.getTagName = item_name) ∧
        (∀ d, (Node.text d ∈ parent.children ∨ Node.cdata d ∈ parent.children) →
          ∀ ch ∈ d, isspace ch = true))) ∧
    (∀ result, GetItemListElements parent item_name = .ok result →
      result = elementChildren parent.children ∧
      result.map Node.element = parent.children.filter Node.isElement ∧
      result.length = (parent.children.filter Node.isElement).length) ∧
    (∀ x, GetItemListElements parent item_name = .error x →
      ∃ pre bad post, parent.children = pre ++ bad :: post ∧
        (∀ c ∈ pre, (∀ e, c = Node.element e → e.getTagName = item_name) ∧
          (∀ d, (c = Node.text d ∨ c = Node.cdata d) → ∀ ch ∈ d, isspace ch = true)) ∧
        ((∃ e, bad = Node.element e ∧ e.getTagName ≠ item_name ∧
            x = TXmlError.TUnexpectedElementName e item_name) ∨
          (∃ d, (bad = Node.text d ∨ bad = Node.cdata d) ∧
            (¬ ∀ ch ∈ d, isspace ch = true) ∧ x = TXmlError.TUnexpectedText bad))) := by
  refine ⟨?_, ?_, ?_⟩
  · unfold GetItemListElements
    constructor
    · rintro ⟨result, h⟩
      obtain ⟨hgood, _⟩ := (item_loop_ok_iff _ _ _ _).mp h
      constructor
      · intro e he
        exact (hgood _ he).1 e rfl
      · rintro d (hd | hd)
        · exact (IsAllWhitespace_iff d).mp ((hgood _ hd).2 d (Or.inl rfl))
        · exact (IsAllWhitespace_iff d).mp ((hgood _ hd).2 d (Or.inr rfl))
    · rintro ⟨helem, htext⟩
      refine ⟨elementChildren parent.children, ?_⟩
      rw [item_loop_ok_iff]
      refine ⟨?_, rfl⟩
      intro c hc
      constructor
      · intro e he
        subst he
        exact helem e hc
      · rintro d (hd | hd)
        · subst hd; exact (IsAllWhitespace_iff d).mpr (htext d (Or.inl hc))
        · subst hd; exact (IsAllWhitespace_iff d).mpr (htext d (Or.inr hc))
  · intro result h
    unfold GetItemListElements at h
    obtain ⟨_, hres⟩ := (item_loop_ok_iff _ _ _ _).mp h
    rw [List.nil_append] at hres
    have hmap := elementChildren_eq_filter parent.children
    rw [← hres] at hmap
    refine ⟨hres, hmap, ?_⟩
    rw [← hmap, List.length_map]
  · intro x h
    unfold GetItemListElements at h
    obtain ⟨pre, bad, post, hsplit, hpre, hbad⟩ := item_loop_error _ _ _ _ h
    refine ⟨pre, bad, post, hsplit, ?_, ?_⟩
    · intro c hc
      refine ⟨(hpre c hc).1, ?_⟩
      intro d hd
      exact (IsAllWhitespace_iff d).mp ((hpre c hc).2 d hd)
    · rcases hbad with hb | ⟨d, hd, hw, hx⟩
      · exact Or.inl hb
      · refine Or.inr ⟨d, hd, ?_, hx⟩
        intro hall
        rw [(IsAllWhitespace_iff d).mpr hall] at hw
        cases hw

/-! ## The connect handler of the mock server -/

/-- C8 (as stated, at a transient failure): when `accept` fails with `EAGAIN`
(resource temporarily unavailable) or with `ECONNABORTED` (the peer reset the
connection before the accept completed), `OnEvent` does not return normally:
the system error that `IfLt0` raises leaves the function.  Whatever `IfLt0`
did with the failed result, `OnEvent` could not absorb it: it has no path that
both returns normally and dispatches no handler. -/
theorem OnEvent_transient_counterexample :
    (OnEvent (TConnectHandler.mk (fun (_ : Nat) (_ : Nat) (_ : Nat) (sock : TFd) => sock) 0 0 0)
        IfLt0 3 ⟨-1, EAGAIN⟩).2 = some ⟨EAGAIN⟩ ∧
    (OnEvent (TConnectHandler.mk (fun (_ : Nat) (_ : Nat) (_ : Nat) (sock : TFd) => sock) 0 0 0)
        IfLt0 3 ⟨-1, ECONNABORTED⟩).2 = some ⟨ECONNABORTED⟩ ∧
    (OnEvent (TConnectHandler.mk (fun (_ : Nat) (_ : Nat) (_ : Nat) (sock : TFd) => sock) 0 0 0)
        IfLt0 3 ⟨-1, EAGAIN⟩).2 ≠ none ∧
    ¬ ∃ ifLt0 : Int → Nat → Except SystemError Int,
      (OnEvent
        (TConnectHandler.mk (fun (_ : Nat) (_ : Nat) (_ : Nat) (sock : TFd) => sock) 0 0 0)
        ifLt0 3 ⟨-1, EAGAIN⟩).2 = none ∧
      (OnEvent
        (TConnectHandler.mk (fun (_ : Nat) (_ : Nat) (_ : Nat) (sock : TFd) => sock) 0 0 0)
        ifLt0 3 ⟨-1, EAGAIN⟩).1.any Call.isDispatch = false := by
  refine ⟨rfl, rfl, ?_, ?_⟩
  · intro h
    cases h
  · rintro ⟨ifLt0, h1, h2⟩
    unfold OnEvent at h1 h2
    cases hf : ifLt0 (-1) EAGAIN with
    | error x =>
      rw [hf] at h1
      cases h1
    | ok sock =>
      rw [hf] at h2
      simp [Call.isDispatch] at h2

/-- C8 (amended): `OnEvent` makes no distinction between transient and other
accept failures.  With `IfLt0` raising a system error for every negative
result, every failed accept, whatever `errno` is, ends `OnEvent` with that
system error right after the accept call: nothing is absorbed, and no handler
is created or started. -/
theorem OnEvent_accept_failure_raised {PM PO SS H : Type} (self : TConnectHandler PM PO SS H)
    (ifLt0 : Int → Nat → Except SystemError Int) (fd : Int) (acc : AcceptOutcome)
    (hIfLt0 : ∀ ret errno, ret < 0 → ifLt0 ret errno = .error ⟨errno⟩)
    (hfail : acc.ret < 0) :
    OnEvent self ifLt0 fd acc = ([Call.Accept fd], some ⟨acc.errno⟩) := by
  unfold OnEvent
  rw [hIfLt0 acc.ret acc.errno hfail]

theorem OnEvent_accept_failure_raised_witness :
    (∀ ret errno, ret < 0 → IfLt0 ret errno = .error ⟨errno⟩) ∧
    ((-1 : Int) < 0) ∧
    OnEvent (TConnectHandler.mk (fun (_ : Nat) (_ : Nat) (_ : Nat) (sock : TFd) => sock) 0 0 0)
      IfLt0 3 ⟨-1, EAGAIN⟩ = ([Call.Accept 3], some ⟨EAGAIN⟩) :=
  ⟨fun ret errno h => by simp [IfLt0, h], by decide,
   OnEvent_accept_failure_raised
     (TConnectHandler.mk (fun (_ : Nat) (_ : Nat) (_ : Nat) (sock : TFd) => sock) 0 0 0)
     IfLt0 3 ⟨-1, EAGAIN⟩ (fun ret errno h => by simp [IfLt0, h]) (by decide)⟩

/-- C9: with `IfLt0` handing a non-negative result through and raising on a
negative one, an event on which accept succeeds makes `OnEvent` perform one
accept, call the factory once with `PortMap`, `PortOffset`, `Ss` and the
accepted socket, start one handler, the factory's result, and return without an
exception; the local `TFd` was moved from, so no descriptor is closed or kept
by the acceptor.  If accept fails, neither the factory nor `RunThread` is
called. -/
theorem OnEvent_dispatch {PM PO SS H : Type} (self : TConnectHandler PM PO SS H)
    (ifLt0 : Int → Nat → Except SystemError Int) (fd : Int) (acc : AcceptOutcome)
    (hok : ∀ ret errno, 0 ≤ ret → ifLt0 ret errno = .ok ret)
    (herr : ∀ ret errno, ret < 0 → ∃ x, ifLt0 ret errno = .error x) :
    (0 ≤ acc.ret →
      OnEvent self ifLt0 fd acc =
        ([Call.Accept fd,
          Call.CreateClientHandler self.PortMap self.PortOffset self.Ss ⟨some acc.ret⟩,
          Call.RunThread
            (self.CreateClientHandler self.PortMap self.PortOffset self.Ss ⟨some acc.ret⟩)],
          none) ∧
      (TFd.move ⟨some acc.ret⟩).2 = ⟨none⟩) ∧
    (acc.ret < 0 →
      (OnEvent self ifLt0 fd acc).1 = [Call.Accept fd] ∧
      (OnEvent self ifLt0 fd acc).2 ≠ none) := by
  constructor
  · intro h
    constructor
    · unfold OnEvent
      rw [hok acc.ret acc.errno h]
      rfl
    · rfl
  · intro h
    obtain ⟨x, hx⟩ := herr acc.ret acc.errno h
    unfold OnEvent
    rw [hx]
    exact ⟨rfl, fun hc => by cases hc⟩

theorem OnEvent_dispatch_witness :
    (∀ ret errno, 0 ≤ ret → IfLt0 ret errno = .ok ret) ∧
    (∀ ret errno, ret < 0 → ∃ x, IfLt0 ret errno = .error x) ∧
    OnEvent (TConnectHandler.mk (fun (_ : Nat) (_ : Nat) (_ : Nat) (sock : TFd) => sock) 1 2 3)
      IfLt0 5 ⟨7, 0⟩ =
        ([Call.Accept 5, Call.CreateClientHandler 1 2 3 ⟨some 7⟩, Call.RunThread ⟨some 7⟩],
          none) :=
  ⟨fun ret errno h => by simp [IfLt0, h],
   fun ret errno h => ⟨⟨errno⟩, by simp [IfLt0, h]⟩,
   ((OnEvent_dispatch
      (TConnectHandler.mk (fun (_ : Nat) (_ : Nat) (_ : Nat) (sock : TFd) => sock) 1 2 3)
      IfLt0 5 ⟨7, 0⟩ (fun ret errno h => by simp [IfLt0, h])
      (fun ret errno h => ⟨⟨errno⟩, by simp [IfLt0, h]⟩)).1 (by decide)).1⟩

/-! ## The UNIX stream server -/

theorem runModeOps_frame (ops : List ModeOp) :
    ∀ self : TUnixStreamServer,
      (runModeOps self ops).Path = self.Path ∧
      (runModeOps self ops).ClientAddr = self.ClientAddr ∧
      (runModeOps self ops).ListeningSocket = self.ListeningSocket ∧
      (runModeOps self ops).Mode = (ops.getLast?.map ModeOp.override).getD self.Mode := by
  induction ops with
  | nil => intro self; exact ⟨rfl, rfl, rfl, rfl⟩
  | cons op rest ih =>
    intro self
    obtain ⟨h1, h2, h3, h4⟩ := ih (ModeOp.apply self op)
    have hstep : runModeOps self (op :: rest) = runModeOps (ModeOp.apply self op) rest := rfl
    rw [hstep, h1, h2, h3, h4]
    refine ⟨?_, ?_, ?_, ?_⟩
    · cases op <;> rfl
    · cases op <;> rfl
    · cases op <;> rfl
    · cases rest with
      | nil => cases op <;> rfl
      | cons op' rest' =>
        rw [List.getLast?_cons_cons]
        cases h : (op' :: rest').getLast? with
        | none => simp at h
        | some l => rfl

/-- C10: the permission-mode override of a `TUnixStreamServer` is absent after
construction and reflects the most recent of `SetMode` / `ClearMode`: after
`SetMode(m)` it is present with value `m`, after `ClearMode()` it is absent
whatever it was (so `SetMode(m)` followed by `ClearMode()` on a server that
never had a mode leaves it as it was, and `ClearMode` is idempotent); after
any sequence of the two operations it is what the last one left.  Neither
operation changes the socket path, the client address register or the
listening socket. -/
theorem TUnixStreamServer_mode_override (self : TUnixStreamServer) (m : Nat) :
    (∀ path, (TUnixStreamServer.new path).Mode = none) ∧
    (self.SetMode m).Mode = some m ∧
    self.ClearMode.Mode = none ∧
    (self.SetMode m).ClearMode = self.ClearMode ∧
    (∀ path, ((TUnixStreamServer.new path).SetMode m).ClearMode = TUnixStreamServer.new path) ∧
    self.ClearMode.ClearMode = self.ClearMode ∧
    (∀ ops : List ModeOp,
      (runModeOps self ops).Mode = (ops.getLast?.map ModeOp.override).getD self.Mode ∧
      (runModeOps self ops).Path = self.Path ∧
      (runModeOps self ops).ClientAddr = self.ClientAddr ∧
      (runModeOps self ops).ListeningSocket = self.ListeningSocket) ∧
    ((self.SetMode m).Path = self.Path ∧ (self.SetMode m).ClientAddr = self.ClientAddr ∧
      (self.SetMode m).ListeningSocket = self.ListeningSocket) ∧
    (self.ClearMode.Path = self.Path ∧ self.ClearMode.ClientAddr = self.ClientAddr ∧
      self.ClearMode.ListeningSocket = self.ListeningSocket) := by
  refine ⟨fun _ => rfl, rfl, rfl, rfl, fun _ => rfl, rfl, ?_, ⟨rfl, rfl, rfl⟩, ⟨rfl, rfl, rfl⟩⟩
  intro ops
  obtain ⟨h1, h2, h3, h4⟩ := runModeOps_frame ops self
  exact ⟨h4, h1, h2, h3⟩

/-! ## Leaf checks -/

theorem RequireNoChildElement_loop_ok_iff (cs : List (Node DOMElement)) :
    RequireNoChildElement.loop cs = .ok () ↔ ∀ e, Node.element e ∉ cs := by
  induction cs with
  | nil =>
    rw [RequireNoChildElement.loop]
    exact ⟨(fun _ e h => by cases h), fun _ => rfl⟩
  | cons c rest ih =>
    cases c with
    | element e =>
      rw [RequireNoChildElement.loop]
      constructor
      · intro h; cases h
      · intro h; exact absurd (List.mem_cons_self _ _) (h e)
    | text d =>
      rw [RequireNoChildElement.loop, ih]
      constructor
      · intro h e he
        rcases List.mem_cons.mp he with h1 | h1
        · cases h1
        · exact h e h1
      · intro h e he
        exact h e (List.mem_cons_of_mem _ he)
    | cdata d =>
      rw [RequireNoChildElement.loop, ih]
      constructor
      · intro h e he
        rcases List.mem_cons.mp he with h1 | h1
        · cases h1
        · exact h e h1
      · intro h e he
        exact h e (List.mem_cons_of_mem _ he)
    | other =>
      rw [RequireNoChildElement.loop, ih]
      constructor
      · intro h e he
        rcases List.mem_cons.mp he with h1 | h1
        · cases h1
        · exact h e h1
      · intro h e he
        exact h e (List.mem_cons_of_mem _ he)

theorem RequireNoChildElement_loop_error (cs : List (Node DOMElement)) (x : TXmlError)
    (h : RequireNoChildElement.loop cs = .error x) :
    ∃ pre e post, cs = pre ++ Node.element e :: post ∧ (∀ e', Node.element e' ∉ pre) ∧
      x = TXmlError.TUnknownElement e := by
  induction cs with
  | nil => rw [RequireNoChildElement.loop] at h; cases h
  | cons c rest ih =>
    have step : c.isElement = false → RequireNoChildElement.loop rest = .error x →
        ∃ pre e post, c :: rest = pre ++ Node.element e :: post ∧
          (∀ e', Node.element e' ∉ pre) ∧ x = TXmlError.TUnknownElement e := by
      intro hc hrest
      obtain ⟨pre, e, post, hsplit, hpre, hx⟩ := ih hrest
      refine ⟨c :: pre, e, post, by rw [hsplit]; rfl, ?_, hx⟩
      intro e' he'
      rcases List.mem_cons.mp he' with h1 | h1
      · rw [← h1] at hc; cases hc
      · exact hpre e' h1
    cases c with
    | element e =>
      rw [RequireNoChildElement.loop] at h
      cases h
      exact ⟨[], e, rest, rfl, (fun e' he' => by cases he'), rfl⟩
    | text d => rw [RequireNoChildElement.loop] at h; exact step rfl h
    | cdata d => rw [RequireNoChildElement.loop] at h; exact step rfl h
    | other => rw [RequireNoChildElement.loop] at h; exact step rfl h

theorem RequireLeaf_ok_iff (elem : DOMElement) :
    RequireLeaf elem = .ok () ↔ elem.children = [] := by
  unfold RequireLeaf
  cases elem.children with
  | nil => exact ⟨fun _ => rfl, fun _ => rfl⟩
  | cons c rest =>
    constructor
    · intro h; cases h
    · intro h; cases h

theorem RequireAllChildElementLeaves_loop_ok (cs : List (Node DOMElement))
    (h : RequireAllChildElementLeaves.loop cs = .ok ()) :
    ∀ e, Node.element e ∈ cs → e.children = [] := by
  induction cs with
  | nil => intro e he; cases he
  | cons c rest ih =>
    have step : c.isElement = false → RequireAllChildElementLeaves.loop rest = .ok () →
        ∀ e, Node.element e ∈ c :: rest → e.children = [] := by
      intro hc hrest e he
      rcases List.mem_cons.mp he with h1 | h1
      · rw [← h1] at hc; cases hc
      · exact ih hrest e h1
    cases c with
    | element child =>
      rw [RequireAllChildElementLeaves.loop] at h
      cases hl : RequireLeaf child with
      | error x => rw [hl] at h; cases h
      | ok u =>
        rw [hl] at h
        intro e he
        rcases List.mem_cons.mp he with h1 | h1
        · cases h1
          exact (RequireLeaf_ok_iff _).mp hl
        · exact ih h e h1
    | text d => rw [RequireAllChildElementLeaves.loop] at h; exact step rfl h
    | cdata d => rw [RequireAllChildElementLeaves.loop] at h; exact step rfl h
    | other => rw [RequireAllChildElementLeaves.loop] at h; exact step rfl h

theorem RequireNoGrandchildElement_loop_ok (cs : List (Node DOMElement))
    (h : ∀ e, Node.element e ∈ cs → ∀ g, Node.element g ∉ e.children) :
    RequireNoGrandchildElement.loop cs = .ok () := by
  induction cs with
  | nil => rfl
  | cons c rest ih =>
    have hrest := ih (fun e he => h e (List.mem_cons_of_mem _ he))
    cases c with
    | element child =>
      rw [RequireNoGrandchildElement.loop]
      have hc : RequireNoChildElement child = .ok () :=
        (RequireNoChildElement_loop_ok_iff child.children).mpr
          (h child (List.mem_cons_self _ _))
      rw [hc]
      exact hrest
    | text d => rw [RequireNoGrandchildElement.loop]; exact hrest
    | cdata d => rw [RequireNoGrandchildElement.loop]; exact hrest
    | other => rw [RequireNoGrandchildElement.loop]; exact hrest

/-- C18: `RequireLeaf` throws, and then `TExpectedLeaf`, if and only if the
element has at least one child node of any type; `RequireNoChildElement`
throws, and then `TUnknownElement` for the first element child, if and only if
the element has an element child.  So `RequireLeaf` succeeding implies that
`RequireNoChildElement` succeeds, while an element holding only whitespace
text, or only a comment, is accepted by `RequireNoChildElement` and rejected
by `RequireLeaf`.  Likewise `RequireAllChildElementLeaves` succeeding implies
that `RequireNoGrandchildElement` succeeds. -/
theorem RequireLeaf_stronger (elem : DOMElement) :
    ((∃ x, RequireLeaf elem = .error x) ↔ elem.children ≠ []) ∧
    (∀ x, RequireLeaf elem = .error x → x = TXmlError.TExpectedLeaf elem) ∧
    ((∃ x, RequireNoChildElement elem = .error x) ↔ ∃ e, Node.element e ∈ elem.children) ∧
    (∀ x, RequireNoChildElement elem = .error x →
      ∃ pre e post, elem.children = pre ++ Node.element e :: post ∧
        (∀ e', Node.element e' ∉ pre) ∧ x = TXmlError.TUnknownElement e) ∧
    (RequireLeaf elem = .ok () → RequireNoChildElement elem = .ok ()) ∧
    (RequireNoChildElement (DOMElement.mk ['e'] [] [Node.text [' ', '\n']]) = .ok () ∧
      RequireLeaf (DOMElement.mk ['e'] [] [Node.text [' ', '\n']]) =
        .error (TXmlError.TExpectedLeaf (DOMElement.mk ['e'] [] [Node.text [' ', '\n']])) ∧
      RequireNoChildElement (DOMElement.mk ['e'] [] [Node.other]) = .ok () ∧
      RequireLeaf (DOMElement.mk ['e'] [] [Node.other]) =
        .error (TXmlError.TExpectedLeaf (DOMElement.mk ['e'] [] [Node.other]))) ∧
    (RequireAllChildElementLeaves elem = .ok () →
      RequireNoGrandchildElement elem = .ok ()) := by
  refine ⟨?_, ?_, ?_, ?_, ?_, ⟨rfl, rfl, rfl, rfl⟩, ?_⟩
  · constructor
    · rintro ⟨x, hx⟩ hnil
      rw [(RequireLeaf_ok_iff elem).mpr hnil] at hx
      cases hx
    · intro hne
      cases hl : RequireLeaf elem with
      | error x => exact ⟨x, rfl⟩
      | ok u => exact absurd ((RequireLeaf_ok_iff elem).mp hl) hne
  · intro x hx
    unfold RequireLeaf at hx
    cases hc : elem.children with
    | nil => rw [hc] at hx; cases hx
    | cons c rest => rw [hc] at hx; cases hx; rfl
  · constructor
    · rintro ⟨x, hx⟩
      obtain ⟨pre, e, post, hsplit, _, _⟩ :=
        RequireNoChildElement_loop_error elem.children x hx
      exact ⟨e, by rw [hsplit]; exact List.mem_append_right _ (List.mem_cons_self _ _)⟩
    · rintro ⟨e, he⟩
      cases hl : RequireNoChildElement elem with
      | error x => exact ⟨x, rfl⟩
      | ok u =>
        exact absurd he ((RequireNoChildElement_loop_ok_iff elem.children).mp hl e)
  · intro x hx
    exact RequireNoChildElement_loop_error elem.children x hx
  · intro h
    have hnil := (RequireLeaf_ok_iff elem).mp h
    apply (RequireNoChildElement_loop_ok_iff elem.children).mpr
    intro e he
    rw [hnil] at he
    cases he
  · intro h
    apply RequireNoGrandchildElement_loop_ok
    intro e he g hg
    have := RequireAllChildElementLeaves_loop_ok elem.children h e he
    rw [this] at hg
    cases hg

/-! ## Optional attributes -/

theorem GetOptString_trim (elem : DOMElement) (attr_name : List Char) :
    GetOptString elem attr_name TRIM_WHITESPACE =
      (elem.getAttributeNode attr_name).map trim := by
  unfold GetOptString
  have h1 : hasOpt TRIM_WHITESPACE TRIM_WHITESPACE = true := by decide
  cases elem.getAttributeNode attr_name with
  | none => rfl
  | some value => simp only [h1, if_true, Option.map]

theorem StringToBool_cases (s true_value false_value : List Char) (case_sensitive : Bool)
    (elem : DOMElement) (attr_name : List Char) :
    (compare_fn case_sensitive s true_value = 0 → compare_fn case_sensitive s false_value ≠ 0 →
      StringToBool s true_value false_value case_sensitive elem attr_name = .ok true) ∧
    (compare_fn case_sensitive s true_value ≠ 0 → compare_fn case_sensitive s false_value = 0 →
      StringToBool s true_value false_value case_sensitive elem attr_name = .ok false) ∧
    (compare_fn case_sensitive s true_value ≠ 0 → compare_fn case_sensitive s false_value ≠ 0 →
      StringToBool s true_value false_value case_sensitive elem attr_name =
        .error (TXmlError.TInvalidBoolAttr elem attr_name s true_value false_value)) ∧
    (compare_fn case_sensitive s true_value = 0 → compare_fn case_sensitive s false_value = 0 →
      StringToBool s true_value false_value case_sensitive elem attr_name =
        .error TXmlError.AssertionFailure) := by
  unfold StringToBool
  refine ⟨?_, ?_, ?_, ?_⟩ <;> intro ht hf <;> simp [ht, hf]

theorem compare_fn_not_both (s true_value false_value : List Char) (case_sensitive : Bool)
    (hdist : compare_fn case_sensitive true_value false_value ≠ 0) :
    ¬ (compare_fn case_sensitive s true_value = 0 ∧
      compare_fn case_sensitive s false_value = 0) := by
  rintro ⟨h1, h2⟩
  apply hdist
  rw [compare_fn_eq_zero_iff] at h1 h2 ⊢
  rw [← h1, h2]

/-- C16 (as stated, at tokens that are equal under the comparison): with the
tokens `yes` and `YES` and the case-insensitive comparison, an attribute whose
value is `yes` is present, non-empty after trimming and matches one of the two
tokens (both, in fact), yet `GetOptNamedBool` returns no known value: the
assertion `!(is_true && is_false)` of `StringToBool` fails. -/
theorem GetOptNamedBool_same_token_counterexample :
    (DOMElement.mk ['e'] [(['f'], ['y', 'e', 's'])] []).getAttributeNode ['f'] =
      some ['y', 'e', 's'] ∧
    trim ['y', 'e', 's'] ≠ [] ∧
    compare_fn (hasOpt 0 CASE_SENSITIVE) (trim ['y', 'e', 's']) ['y', 'e', 's'] = 0 ∧
    compare_fn (hasOpt 0 CASE_SENSITIVE) (trim ['y', 'e', 's']) ['Y', 'E', 'S'] = 0 ∧
    GetOptNamedBool (DOMElement.mk ['e'] [(['f'], ['y', 'e', 's'])] []) ['f']
      ['y', 'e', 's'] ['Y', 'E', 'S'] 0 = .error TXmlError.AssertionFailure ∧
    ¬ ∃ b, GetOptNamedBool (DOMElement.mk ['e'] [(['f'], ['y', 'e', 's'])] []) ['f']
      ['y', 'e', 's'] ['Y', 'E', 'S'] 0 = .ok (some b) := by
  refine ⟨rfl, by decide, by decide, by decide, rfl, ?_⟩
  rintro ⟨b, hb⟩
  have h2 : GetOptNamedBool (DOMElement.mk ['e'] [(['f'], ['y', 'e', 's'])] []) ['f']
      ['y', 'e', 's'] ['Y', 'E', 'S'] 0 = .error TXmlError.AssertionFailure := rfl
  rw [h2] at hb
  cases hb

/-- C16 (amended): `GetOptNamedBool` on an absent attribute throws
`TMissingAttrValue` when `REQUIRE_PRESENCE` is set and returns unknown
otherwise; on a present attribute whose trimmed value is empty it returns
unknown, whatever the options; on a present non-empty value it returns known
true when the value matches `true_value` only, known false when it matches
`false_value` only, throws `TInvalidBoolAttr` when it matches neither, and
fails the assertion of `StringToBool` when it matches both.  So it returns a
known value if and only if the attribute is present and its trimmed value is
non-empty and matches one of the two tokens but not both, which for tokens
that are distinct under the comparison in effect is: matches one of the two
tokens.  Whenever it returns known `b`, `GetNamedBool` with the same element,
attribute, tokens and case option returns `b`. -/
theorem GetOptNamedBool_table (elem : DOMElement)
    (attr_name true_value false_value : List Char) (opts : Nat) :
    (elem.getAttributeNode attr_name = none →
      GetOptNamedBool elem attr_name true_value false_value opts =
        if hasOpt opts REQUIRE_PRESENCE = true then
          .error (TXmlError.TMissingAttrValue elem attr_name)
        else .ok none) ∧
    (∀ value, elem.getAttributeNode attr_name = some value →
      (trim value = [] →
        GetOptNamedBool elem attr_name true_value false_value opts = .ok none) ∧
      (trim value ≠ [] →
        (compare_fn (hasOpt opts CASE_SENSITIVE) (trim value) true_value = 0 →
          compare_fn (hasOpt opts CASE_SENSITIVE) (trim value) false_value ≠ 0 →
          GetOptNamedBool elem attr_name true_value false_value opts = .ok (some true)) ∧
        (compare_fn (hasOpt opts CASE_SENSITIVE) (trim value) true_value ≠ 0 →
          compare_fn (hasOpt opts CASE_SENSITIVE) (trim value) false_value = 0 →
          GetOptNamedBool elem attr_name true_value false_value opts = .ok (some false)) ∧
        (compare_fn (hasOpt opts CASE_SENSITIVE) (trim value) true_value ≠ 0 →
          compare_fn (hasOpt opts CASE_SENSITIVE) (trim value) false_value ≠ 0 →
          GetOptNamedBool elem attr_name true_value false_value opts =
            .error (TXmlError.TInvalidBoolAttr elem attr_name (trim value)
              true_value false_value)) ∧
        (compare_fn (hasOpt opts CASE_SENSITIVE) (trim value) true_value = 0 →
          compare_fn (hasOpt opts CASE_SENSITIVE) (trim value) false_value = 0 →
          GetOptNamedBool elem attr_name true_value false_value opts =
            .error TXmlError.AssertionFailure))) ∧
    ((∃ b, GetOptNamedBool elem attr_name true_value false_value opts = .ok (some b)) ↔
      ∃ value, elem.getAttributeNode attr_name = some value ∧ trim value ≠ [] ∧
        (compare_fn (hasOpt opts CASE_SENSITIVE) (trim value) true_value = 0 ∨
          compare_fn (hasOpt opts CASE_SENSITIVE) (trim value) false_value = 0) ∧
        ¬ (compare_fn (hasOpt opts CASE_SENSITIVE) (trim value) true_value = 0 ∧
          compare_fn (hasOpt opts CASE_SENSITIVE) (trim value) false_value = 0)) ∧
    (compare_fn (hasOpt opts CASE_SENSITIVE) true_value false_value ≠ 0 →
      ((∃ b, GetOptNamedBool elem attr_name true_value false_value opts = .ok (some b)) ↔
        ∃ value, elem.getAttributeNode attr_name = some value ∧ trim value ≠ [] ∧
          (compare_fn (hasOpt opts CASE_SENSITIVE) (trim value) true_value = 0 ∨
            compare_fn (hasOpt opts CASE_SENSITIVE) (trim value) false_value = 0))) ∧
    (∀ b opts', hasOpt opts' CASE_SENSITIVE = hasOpt opts CASE_SENSITIVE →
      GetOptNamedBool elem attr_name true_value false_value opts = .ok (some b) →
      GetNamedBool elem attr_name true_value false_value opts' = .ok b) := by
  have habsent : elem.getAttributeNode attr_name = none →
      GetOptNamedBool elem attr_name true_value false_value opts =
        if hasOpt opts REQUIRE_PRESENCE = true then
          .error (TXmlError.TMissingAttrValue elem attr_name)
        else .ok none := by
    intro h
    unfold GetOptNamedBool
    rw [GetOptString_trim, h]
    rfl
  have hempty : ∀ value, elem.getAttributeNode attr_name = some value → trim value = [] →
      GetOptNamedBool elem attr_name true_value false_value opts = .ok none := by
    intro value h he
    unfold GetOptNamedBool
    rw [GetOptString_trim, h]
    simp [he]
  have hfull : ∀ value, elem.getAttributeNode attr_name = some value → trim value ≠ [] →
      GetOptNamedBool elem attr_name true_value false_value opts =
        match StringToBool (trim value) true_value false_value (hasOpt opts CASE_SENSITIVE)
          elem attr_name with
        | .error x => .error x
        | .ok b => .ok (some b) := by
    intro value h hne
    unfold GetOptNamedBool
    rw [GetOptString_trim, h]
    have : (trim value).isEmpty = false := by
      cases ht : trim value with
      | nil => exact absurd ht hne
      | cons c cs => rfl
    simp [this]
  have hexact : (∃ b, GetOptNamedBool elem attr_name true_value false_value opts =
        .ok (some b)) ↔
      ∃ value, elem.getAttributeNode attr_name = some value ∧ trim value ≠ [] ∧
        (compare_fn (hasOpt opts CASE_SENSITIVE) (trim value) true_value = 0 ∨
          compare_fn (hasOpt opts CASE_SENSITIVE) (trim value) false_value = 0) ∧
        ¬ (compare_fn (hasOpt opts CASE_SENSITIVE) (trim value) true_value = 0 ∧
          compare_fn (hasOpt opts CASE_SENSITIVE) (trim value) false_value = 0) := by
    constructor
    · rintro ⟨b, hb⟩
      cases hattr : elem.getAttributeNode attr_name with
      | none =>
        rw [habsent hattr] at hb
        split at hb <;> cases hb
      | some value =>
        by_cases hne : trim value = []
        · rw [hempty value hattr hne] at hb
          cases hb
        · refine ⟨value, rfl, hne, ?_, ?_⟩
          · by_contra hno
            rw [not_or] at hno
            rw [hfull value hattr hne,
              (StringToBool_cases _ _ _ _ _ _).2.2.1 hno.1 hno.2] at hb
            cases hb
          · rintro ⟨h1, h2⟩
            rw [hfull value hattr hne, (StringToBool_cases _ _ _ _ _ _).2.2.2 h1 h2] at hb
            cases hb
    · rintro ⟨value, hattr, hne, hmatch, hnot⟩
      rw [hfull value hattr hne]
      by_cases ht : compare_fn (hasOpt opts CASE_SENSITIVE) (trim value) true_value = 0
      · have hf : compare_fn (hasOpt opts CASE_SENSITIVE) (trim value) false_value ≠ 0 :=
          fun h => hnot ⟨ht, h⟩
        rw [(StringToBool_cases _ _ _ _ _ _).1 ht hf]
        exact ⟨true, rfl⟩
      · have hf : compare_fn (hasOpt opts CASE_SENSITIVE) (trim value) false_value = 0 := by
          rcases hmatch with h | h
          · exact absurd h ht
          · exact h
        rw [(StringToBool_cases _ _ _ _ _ _).2.1 ht hf]
        exact ⟨false, rfl⟩
  refine ⟨habsent, ?_, hexact, ?_, ?_⟩
  · intro value h
    refine ⟨hempty value h, fun hne => ⟨?_, ?_, ?_, ?_⟩⟩
    · intro ht hf
      rw [hfull value h hne, (StringToBool_cases _ _ _ _ _ _).1 ht hf]
    · intro ht hf
      rw [hfull value h hne, (StringToBool_cases _ _ _ _ _ _).2.1 ht hf]
    · intro ht hf
      rw [hfull value h hne, (StringToBool_cases _ _ _ _ _ _).2.2.1 ht hf]
    · intro ht hf
      rw [hfull value h hne, (StringToBool_cases _ _ _ _ _ _).2.2.2 ht hf]
  · intro hdist
    rw [hexact]
    constructor
    · rintro ⟨value, hattr, hne, hmatch, _⟩
      exact ⟨value, hattr, hne, hmatch⟩
    · rintro ⟨value, hattr, hne, hmatch⟩
      exact ⟨value, hattr, hne, hmatch, compare_fn_not_both _ _ _ _ hdist⟩
  · intro b opts' hcase hb
    cases hattr : elem.getAttributeNode attr_name with
    | none =>
      rw [habsent hattr] at hb
      split at hb <;> cases hb
    | some value =>
      by_cases hne : trim value = []
      · rw [hempty value hattr hne] at hb
        cases hb
      · rw [hfull value hattr hne] at hb
        unfold GetNamedBool
        rw [GetString_trim_throw_some elem attr_name value hattr, if_neg hne, hcase]
        cases hs : StringToBool (trim value) true_value false_value
            (hasOpt opts CASE_SENSITIVE) elem attr_name with
        | error x => rw [hs] at hb; cases hb
        | ok b' =>
          rw [hs] at hb
          cases hb
          exact hs

theorem GetOptNamedBool_table_witness :
    compare_fn (hasOpt 0 CASE_SENSITIVE) ['o', 'n'] ['o', 'f', 'f'] ≠ 0 ∧
    GetOptNamedBool (DOMElement.mk ['e'] [(['f'], [' ', 'O', 'n', ' '])] []) ['f']
      ['o', 'n'] ['o', 'f', 'f'] 0 = .ok (some true) ∧
    ∃ b, GetOptNamedBool (DOMElement.mk ['e'] [(['f'], [' ', 'O', 'n', ' '])] []) ['f']
      ['o', 'n'] ['o', 'f', 'f'] 0 = .ok (some b) :=
  ⟨by decide,
   (((GetOptNamedBool_table (DOMElement.mk ['e'] [(['f'], [' ', 'O', 'n', ' '])] []) ['f']
      ['o', 'n'] ['o', 'f', 'f'] 0).2.1 [' ', 'O', 'n', ' '] rfl).2 (by decide)).1
        (by decide) (by decide),
   ((GetOptNamedBool_table (DOMElement.mk ['e'] [(['f'], [' ', 'O', 'n', ' '])] []) ['f']
      ['o', 'n'] ['o', 'f', 'f'] 0).2.2.2.1 (by decide)).mpr
        ⟨[' ', 'O', 'n', ' '], rfl, by decide, Or.inl (by decide)⟩⟩

/-- C15: the decision table of `GetOpt64BitIntAttr` (`GetOptUint64`,
`GetOptInt64`) on the whitespace-trimmed attribute.  Absent: `TMissingAttrValue`
if `REQUIRE_PRESENCE` is set, else unknown.  Present and empty:
`TMissingAttrValue` if and only if `empty_value_name` is non-null and
`STRICT_EMPTY_VALUE` is set, else unknown.  Present, non-empty and equal to a
non-null `empty_value_name`: unknown.  Otherwise: the known value `AttrToInt`
gives, or its exception.  The result is known only in the last case. -/
theorem GetOpt64BitIntAttr_table (T : IntType) (cast : List Char → Option Int)
    (elem : DOMElement) (attr_name : List Char) (empty_value_name : Option (List Char))
    (opts : Nat) :
    (elem.getAttributeNode attr_name = none →
      GetOpt64BitIntAttr T cast elem attr_name empty_value_name opts =
        if hasOpt opts REQUIRE_PRESENCE = true then
          .error (TXmlError.TMissingAttrValue elem attr_name)
        else .ok none) ∧
    (∀ value, elem.getAttributeNode attr_name = some value →
      (trim value = [] →
        GetOpt64BitIntAttr T cast elem attr_name empty_value_name opts =
          if empty_value_name ≠ none ∧ hasOpt opts STRICT_EMPTY_VALUE = true then
            .error (TXmlError.TMissingAttrValue elem attr_name)
          else .ok none) ∧
      (trim value ≠ [] → empty_value_name = some (trim value) →
        GetOpt64BitIntAttr T cast elem attr_name empty_value_name opts = .ok none) ∧
      (trim value ≠ [] → empty_value_name ≠ some (trim value) →
        (∀ v, AttrToInt T cast (trim value) elem attr_name opts = .ok v →
          GetOpt64BitIntAttr T cast elem attr_name empty_value_name opts = .ok (some v)) ∧
        (∀ x, AttrToInt T cast (trim value) elem attr_name opts = .error x →
          GetOpt64BitIntAttr T cast elem attr_name empty_value_name opts = .error x))) ∧
    (∀ v, GetOpt64BitIntAttr T cast elem attr_name empty_value_name opts = .ok (some v) →
      ∃ value, elem.getAttributeNode attr_name = some value ∧ trim value ≠ [] ∧
        empty_value_name ≠ some (trim value) ∧
        AttrToInt T cast (trim value) elem attr_name opts = .ok v) ∧
    (GetOptUint64 cast elem attr_name empty_value_name opts =
        GetOpt64BitIntAttr .uint64 cast elem attr_name empty_value_name opts ∧
      GetOptInt64 cast elem attr_name empty_value_name opts =
        GetOpt64BitIntAttr .int64 cast elem attr_name empty_value_name opts) := by
  have habsent : elem.getAttributeNode attr_name = none →
      GetOpt64BitIntAttr T cast elem attr_name empty_value_name opts =
        if hasOpt opts REQUIRE_PRESENCE = true then
          .error (TXmlError.TMissingAttrValue elem attr_name)
        else .ok none := by
    intro h
    unfold GetOpt64BitIntAttr
    rw [GetOptString_trim, h]
    rfl
  have hempty : ∀ value, elem.getAttributeNode attr_name = some value → trim value = [] →
      GetOpt64BitIntAttr T cast elem attr_name empty_value_name opts =
        if empty_value_name ≠ none ∧ hasOpt opts STRICT_EMPTY_VALUE = true then
          .error (TXmlError.TMissingAttrValue elem attr_name)
        else .ok none := by
    intro value h he
    unfold GetOpt64BitIntAttr
    rw [GetOptString_trim, h]
    cases empty_value_name with
    | none => simp [he]
    | some n => simp [he]
  have hsentinel : ∀ value, elem.getAttributeNode attr_name = some value → trim value ≠ [] →
      empty_value_name = some (trim value) →
      GetOpt64BitIntAttr T cast elem attr_name empty_value_name opts = .ok none := by
    intro value h hne heq
    unfold GetOpt64BitIntAttr
    rw [GetOptString_trim, h, heq]
    have : (trim value).isEmpty = false := by
      cases ht : trim value with
      | nil => exact absurd ht hne
      | cons c cs => rfl
    simp [this]
  have hlast : ∀ value, elem.getAttributeNode attr_name = some value → trim value ≠ [] →
      empty_value_name ≠ some (trim value) →
      GetOpt64BitIntAttr T cast elem attr_name empty_value_name opts =
        match AttrToInt T cast (trim value) elem attr_name opts with
        | .error x => .error x
        | .ok v => .ok (some v) := by
    intro value h hne hneq
    unfold GetOpt64BitIntAttr
    rw [GetOptString_trim, h]
    have h1 : (trim value).isEmpty = false := by
      cases ht : trim value with
      | nil => exact absurd ht hne
      | cons c cs => rfl
    have h2 : (empty_value_name.isNone || decide (some (trim value) ≠ empty_value_name)) =
        true := by
      rw [Bool.or_eq_true]
      right
      exact decide_eq_true (fun hc => hneq hc.symm)
    simp only [Option.map, h1, Bool.false_eq_true, if_false, h2, if_true]
  refine ⟨habsent, ?_, ?_, ⟨rfl, rfl⟩⟩
  · intro value h
    refine ⟨hempty value h, hsentinel value h, fun hne hneq => ⟨?_, ?_⟩⟩
    · intro v hv
      rw [hlast value h hne hneq, hv]
    · intro x hx
      rw [hlast value h hne hneq, hx]
  · intro v hv
    cases hattr : elem.getAttributeNode attr_name with
    | none =>
      rw [habsent hattr] at hv
      split at hv <;> cases hv
    | some value =>
      by_cases hne : trim value = []
      · rw [hempty value hattr hne] at hv
        split at hv <;> cases hv
      · by_cases heq : empty_value_name = some (trim value)
        · rw [hsentinel value hattr hne heq] at hv
          cases hv
        · refine ⟨value, rfl, hne, heq, ?_⟩
          rw [hlast value hattr hne heq] at hv
          cases ha : AttrToInt T cast (trim value) elem attr_name opts with
          | error x => rw [ha] at hv; cases hv
          | ok v' =>
            rw [ha] at hv
            cases hv
            rfl

/-! ## Suffixes of integer attributes -/

theorem mult_bounds (T : IntType) (m : Nat) (v : Int)
    (hm : m = 1 ∨ m = 1024 ∨ m = 1048576) :
    ((v < T.min.tdiv (T.wrap m) ∨ v > T.max.tdiv (T.wrap m)) ↔
      ¬ (T.min ≤ v * (m : Int) ∧ v * (m : Int) ≤ T.max)) ∧
    ((T.min ≤ v * (m : Int) ∧ v * (m : Int) ≤ T.max) →
      T.wrap (v * T.wrap m) = v * (m : Int)) := by
  have d1 : Int.tdiv (-9223372036854775808) 1 = -9223372036854775808 := by decide
  have d2 : Int.tdiv (-9223372036854775808) 1024 = -9007199254740992 := by decide
  have d3 : Int.tdiv (-9223372036854775808) 1048576 = -8796093022208 := by decide
  have d4 : Int.tdiv 9223372036854775807 1 = 9223372036854775807 := by decide
  have d5 : Int.tdiv 9223372036854775807 1024 = 9007199254740991 := by decide
  have d6 : Int.tdiv 9223372036854775807 1048576 = 8796093022207 := by decide
  have d7 : Int.tdiv 18446744073709551615 1 = 18446744073709551615 := by decide
  have d8 : Int.tdiv 18446744073709551615 1024 = 18014398509481983 := by decide
  have d9 : Int.tdiv 18446744073709551615 1048576 = 17592186044415 := by decide
  have d0 : ∀ k : Int, Int.tdiv 0 k = 0 := fun k => Int.zero_tdiv k
  cases T <;> rcases hm with rfl | rfl | rfl <;>
    simp only [IntType.min, IntType.max, IntType.wrap] <;>
    norm_num [d0, d1, d2, d3, d4, d5, d6, d7, d8, d9] <;> omega

theorem AttrToInt_eval (T : IntType) (cast : List Char → Option Int) (attr : List Char)
    (elem : DOMElement) (attr_name : List Char) (opts : Nat) :
    AttrToInt T cast attr elem attr_name opts =
      match cast (ExtractMultiplier attr opts).2 with
      | none => .error (invalidIntegerAttr T elem attr_name attr)
      | some v =>
        if T.min ≤ v * ((ExtractMultiplier attr opts).1 : Int) ∧
            v * ((ExtractMultiplier attr opts).1 : Int) ≤ T.max then
          .ok (v * ((ExtractMultiplier attr opts).1 : Int))
        else .error (TXmlError.TAttrOutOfRange elem attr_name attr) := by
  unfold AttrToInt
  cases hc : cast (ExtractMultiplier attr opts).2 with
  | none =>
    simp only [hc, invalidIntegerAttr]
    split <;> rfl
  | some v =>
    obtain ⟨hb, hw⟩ := mult_bounds T (ExtractMultiplier attr opts).1 v
      (ExtractMultiplier_cases attr opts)
    simp only [hc]
    by_cases hin : T.min ≤ v * ((ExtractMultiplier attr opts).1 : Int) ∧
        v * ((ExtractMultiplier attr opts).1 : Int) ≤ T.max
    · have hnot : ¬ (v < T.min.tdiv (T.wrap (ExtractMultiplier attr opts).1) ∨
          v > T.max.tdiv (T.wrap (ExtractMultiplier attr opts).1)) :=
        fun h => (hb.mp h) hin
      rw [if_neg hnot, if_pos hin, hw hin]
    · rw [if_pos (hb.mpr hin), if_neg hin]

theorem digit_not_special (d : Char) (h : (digitValue d).isSome = true) :
    isspace d = false ∧ d ≠ 'k' ∧ d ≠ 'K' ∧ d ≠ 'm' ∧ d ≠ 'M' := by
  refine ⟨?_, ?_, ?_, ?_, ?_⟩
  · cases hs : isspace d with
    | false => rfl
    | true =>
      simp only [isspace, Bool.or_eq_true, decide_eq_true_eq] at hs
      rcases hs with ((((hs | hs) | hs) | hs) | hs) | hs <;>
        (subst hs; exact absurd h (by decide))
  · intro hc; subst hc; exact absurd h (by decide)
  · intro hc; subst hc; exact absurd h (by decide)
  · intro hc; subst hc; exact absurd h (by decide)
  · intro hc; subst hc; exact absurd h (by decide)

theorem suffix_not_space (c : Char) (hc : c = 'k' ∨ c = 'K' ∨ c = 'm' ∨ c = 'M') :
    isspace c = false ∧ digitValue c = none ∧ c ≠ '-' ∧ c ≠ '+' := by
  rcases hc with rfl | rfl | rfl | rfl <;> decide

theorem isNumeral_ends (s : List Char) (h : isNumeral s = true) :
    ∃ hne : s ≠ [], isspace (s.head hne) = false ∧ (digitValue (s.getLast hne)).isSome = true := by
  cases s with
  | nil => cases h
  | cons c cs =>
    refine ⟨List.cons_ne_nil c cs, ?_⟩
    simp only [isNumeral, Bool.and_eq_true, Bool.not_eq_true', List.all_eq_true] at h
    obtain ⟨hne, hall⟩ := h
    by_cases hsign : c = '-' ∨ c = '+'
    · rw [if_pos hsign] at hne hall
      have hcs : cs ≠ [] := by
        intro hnil
        rw [hnil] at hne
        cases hne
      constructor
      · show isspace c = false
        rcases hsign with rfl | rfl <;> decide
      · rw [List.getLast_cons hcs]
        exact hall _ (List.getLast_mem hcs)
    · rw [if_neg hsign] at hall
      constructor
      · exact (digit_not_special c (hall c (List.mem_cons_self _ _))).1
      · exact hall _ (List.getLast_mem _)

theorem trim_eq_self (x : List Char) (hx : x ≠ []) (hhead : isspace (x.head hx) = false)
    (hlast : isspace (x.getLast hx) = false) : trim x = x := by
  have hr : trim_right x = x := by
    unfold trim_right
    rw [List.rdropWhile_eq_self_iff]
    intro hl
    rw [hlast]
    exact Bool.false_ne_true
  unfold trim
  rw [hr]
  unfold trim_left
  cases x with
  | nil => exact absurd rfl hx
  | cons a rest =>
    have ha : isspace a = false := hhead
    simp [List.dropWhile, ha]

theorem dropWhile_append_of_all (p : Char → Bool) (a b : List Char)
    (h : ∀ x ∈ a, p x = true) : (a ++ b).dropWhile p = b.dropWhile p := by
  induction a with
  | nil => rfl
  | cons x rest ih =>
    have hx : p x = true := h x (List.mem_cons_self _ _)
    rw [List.cons_append, List.dropWhile_cons, if_pos hx]
    exact ih (fun y hy => h y (List.mem_cons_of_mem _ hy))

theorem trim_right_append_space (s w : List Char) (hs : s ≠ [])
    (hlast : isspace (s.getLast hs) = false) (hw : ∀ x ∈ w, isspace x = true) :
    trim_right (s ++ w) = s := by
  have h1 : trim_right (s ++ w) = trim_right s := by
    unfold trim_right List.rdropWhile
    rw [List.reverse_append, dropWhile_append_of_all isspace w.reverse s.reverse
      (fun x hx => hw x (List.mem_reverse.mp hx))]
  rw [h1]
  unfold trim_right
  rw [List.rdropWhile_eq_self_iff]
  intro hl
  rw [hlast]
  exact Bool.false_ne_true

theorem ExtractMultiplier_plain (s : List Char) (opts : Nat) (hs : s ≠ [])
    (hlast : s.getLast hs ≠ 'k' ∧ s.getLast hs ≠ 'K' ∧ s.getLast hs ≠ 'm' ∧
      s.getLast hs ≠ 'M') :
    ExtractMultiplier s opts = (1, s) := by
  have hl : s.getLast? = some (s.getLast hs) := List.getLast?_eq_getLast s hs
  have h1 : (ExtractMultiplier s opts).1 = 1 := by
    rw [ExtractMultiplier_fst, hl]
    simp only [Option.some.injEq]
    rw [if_neg (fun h => by rcases h.2.1 with h | h; exact hlast.1 h; exact hlast.2.1 h),
      if_neg (fun h => by rcases h.2.1 with h | h; exact hlast.2.2.1 h; exact hlast.2.2.2 h)]
  have h2 := ExtractMultiplier_snd s opts
  rw [h1] at h2
  exact Prod.ext h1 (by rw [h2]; rfl)

theorem ExtractMultiplier_suffixed (body : List Char) (c : Char) (opts : Nat)
    (hbody : body ≠ []) :
    ((c = 'k' ∨ c = 'K') → hasOpt opts ALLOW_K = true →
      ExtractMultiplier (body ++ [c]) opts = (1024, trim_right body)) ∧
    ((c = 'm' ∨ c = 'M') → hasOpt opts ALLOW_M = true →
      ExtractMultiplier (body ++ [c]) opts = (1048576, trim_right body)) := by
  have hl : (body ++ [c]).getLast? = some c := List.getLast?_concat body
  have hlen : 1 < (body ++ [c]).length := by
    rw [List.length_append, List.length_singleton]
    have := List.length_pos.mpr hbody
    omega
  have hdrop : (body ++ [c]).dropLast = body := List.dropLast_concat
  have hfst := ExtractMultiplier_fst (body ++ [c]) opts
  have hsnd := ExtractMultiplier_snd (body ++ [c]) opts
  rw [hl] at hfst
  simp only [Option.some.injEq] at hfst
  rw [hdrop] at hsnd
  constructor
  · intro hc ho
    rw [if_pos ⟨hlen, hc, ho⟩] at hfst
    rw [hfst] at hsnd
    exact Prod.ext hfst (by rw [hsnd]; rfl)
  · intro hc ho
    have hk : ¬ (c = 'k' ∨ c = 'K') := by
      rcases hc with rfl | rfl <;> decide
    rw [if_neg (fun h => hk h.2.1), if_pos ⟨hlen, hc, ho⟩] at hfst
    rw [hfst] at hsnd
    exact Prod.ext hfst (by rw [hsnd]; rfl)

theorem ExtractMultiplier_disabled (s : List Char) (c : Char) (opts : Nat)
    (h : ((c = 'k' ∨ c = 'K') ∧ hasOpt opts ALLOW_K = false) ∨
      ((c = 'm' ∨ c = 'M') ∧ hasOpt opts ALLOW_M = false)) :
    ExtractMultiplier (s ++ [c]) opts = (1, s ++ [c]) := by
  have hl : (s ++ [c]).getLast? = some c := List.getLast?_concat s
  have hfst := ExtractMultiplier_fst (s ++ [c]) opts
  have hsnd := ExtractMultiplier_snd (s ++ [c]) opts
  rw [hl] at hfst
  simp only [Option.some.injEq] at hfst
  have h1 : (ExtractMultiplier (s ++ [c]) opts).1 = 1 := by
    rcases h with ⟨hc, ho⟩ | ⟨hc, ho⟩
    · have hm : ¬ (c = 'm' ∨ c = 'M') := by
        rcases hc with rfl | rfl <;> decide
      rw [if_neg (fun h => by rw [ho] at h; exact Bool.false_ne_true h.2.2),
        if_neg (fun h => hm h.2.1)] at hfst
      exact hfst
    · have hk : ¬ (c = 'k' ∨ c = 'K') := by
        rcases hc with rfl | rfl <;> decide
      rw [if_neg (fun h => hk h.2.1),
        if_neg (fun h => by rw [ho] at h; exact Bool.false_ne_true h.2.2)] at hfst
      exact hfst
  rw [h1] at hsnd
  exact Prod.ext h1 (by rw [hsnd]; rfl)

theorem readDigits_none (l : List Char) :
    ∀ acc, (∃ x ∈ l, digitValue x = none) → readDigits l acc = none := by
  induction l with
  | nil => rintro acc ⟨x, hx, _⟩; cases hx
  | cons c cs ih =>
    rintro acc ⟨x, hx, hbad⟩
    rw [readDigits]
    cases hd : digitValue c with
    | none => rfl
    | some d =>
      simp only
      apply ih
      rcases List.mem_cons.mp hx with h1 | h1
      · rw [h1, hd] at hbad; cases hbad
      · exact ⟨x, h1, hbad⟩

theorem lexical_cast_bad_last (T : IntType) (x : List Char) (hx : x ≠ [])
    (hbad : digitValue (x.getLast hx) = none) : lexical_cast T x = none := by
  cases x with
  | nil => exact absurd rfl hx
  | cons a rest =>
    unfold lexical_cast
    simp only
    by_cases hd : (if (decide (a = '-') = true ∨ a = '+') then rest else a :: rest) = []
    · rw [if_pos hd]
    · rw [if_neg hd]
      have hmem : ∃ y ∈ (if (decide (a = '-') = true ∨ a = '+') then rest else a :: rest),
          digitValue y = none := by
        by_cases hsign : (decide (a = '-') = true ∨ a = '+')
        · rw [if_pos hsign] at hd ⊢
          refine ⟨rest.getLast hd, List.getLast_mem hd, ?_⟩
          rw [List.getLast_cons hd] at hbad
          exact hbad
        · rw [if_neg hsign]
          exact ⟨_, List.getLast_mem hx, hbad⟩
      rw [readDigits_none _ 0 hmem]

theorem Get64BitIntAttr_of_trim (T : IntType) (cast : List Char → Option Int)
    (elem : DOMElement) (attr_name value : List Char) (opts : Nat)
    (hattr : elem.getAttributeNode attr_name = some value) (hne : trim value ≠ []) :
    Get64BitIntAttr T cast elem attr_name opts =
      AttrToInt T cast (trim value) elem attr_name opts := by
  unfold Get64BitIntAttr
  rw [GetString_trim_throw_some elem attr_name value hattr, if_neg hne]

theorem GetOpt64BitIntAttr_of_trim (T : IntType) (cast : List Char → Option Int)
    (elem : DOMElement) (attr_name value : List Char) (empty_value_name : Option (List Char))
    (opts : Nat)
    (hattr : elem.getAttributeNode attr_name = some value) (hne : trim value ≠ []) :
    GetOpt64BitIntAttr T cast elem attr_name empty_value_name opts =
      if empty_value_name = some (trim value) then .ok none
      else
        match AttrToInt T cast (trim value) elem attr_name opts with
        | .error x => .error x
        | .ok v => .ok (some v) := by
  unfold GetOpt64BitIntAttr
  rw [GetOptString_trim, hattr]
  have h1 : (trim value).isEmpty = false := by
    cases ht : trim value with
    | nil => exact absurd ht hne
    | cons c cs => rfl
  by_cases heq : empty_value_name = some (trim value)
  · rw [if_pos heq, heq]
    simp [h1]
  · rw [if_neg heq]
    have h2 : (empty_value_name.isNone || decide (some (trim value) ≠ empty_value_name)) =
        true := by
      rw [Bool.or_eq_true]
      right
      exact decide_eq_true (fun hc => heq hc.symm)
    simp only [Option.map, h1, Bool.false_eq_true, if_false, h2, if_true]

/-- C13: an attribute whose trimmed value is the single letter `k`, `K`, `m` or
`M` is rejected as an invalid integer whatever flags are set:
`ExtractMultiplier` leaves it untouched with multiplier 1, the cast of the
letter fails, and `AttrToInt` (so `GetInt64` / `GetUint64` as well) throws
`TInvalidSignedIntegerAttr` for `int64_t` and `TInvalidUnsignedIntegerAttr` for
`uint64_t`; no number at all is returned. -/
theorem single_letter_rejected (T : IntType) (elem : DOMElement) (attr_name : List Char)
    (opts : Nat) (c : Char) (hc : c = 'k' ∨ c = 'K' ∨ c = 'm' ∨ c = 'M') :
    ExtractMultiplier [c] opts = (1, [c]) ∧
    lexical_cast T [c] = none ∧
    (∀ cast : List Char → Option Int, cast [c] = none →
      AttrToInt T cast [c] elem attr_name opts =
        .error (invalidIntegerAttr T elem attr_name [c])) ∧
    AttrToInt T (lexical_cast T) [c] elem attr_name opts =
      .error (invalidIntegerAttr T elem attr_name [c]) ∧
    (∀ r, AttrToInt T (lexical_cast T) [c] elem attr_name opts ≠ .ok r) ∧
    (∀ value, elem.getAttributeNode attr_name = some value → trim value = [c] →
      Get64BitIntAttr T (lexical_cast T) elem attr_name opts =
        .error (invalidIntegerAttr T elem attr_name [c])) ∧
    invalidIntegerAttr .int64 elem attr_name [c] =
      TXmlError.TInvalidSignedIntegerAttr elem attr_name [c] ∧
    invalidIntegerAttr .uint64 elem attr_name [c] =
      TXmlError.TInvalidUnsignedIntegerAttr elem attr_name [c] := by
  have hEM : ExtractMultiplier [c] opts = (1, [c]) := by
    simp [ExtractMultiplier]
  have hlc : lexical_cast T [c] = none :=
    lexical_cast_bad_last T [c] (List.cons_ne_nil _ _) (suffix_not_space c hc).2.1
  have hgen : ∀ cast : List Char → Option Int, cast [c] = none →
      AttrToInt T cast [c] elem attr_name opts =
        .error (invalidIntegerAttr T elem attr_name [c]) := by
    intro cast hcast
    rw [AttrToInt_eval, hEM]
    simp only [hcast]
  refine ⟨hEM, hlc, hgen, hgen _ hlc, ?_, ?_, rfl, rfl⟩
  · intro r hr
    rw [hgen _ hlc] at hr
    cases hr
  · intro value hattr htrim
    rw [Get64BitIntAttr_of_trim T _ elem attr_name value opts hattr
      (by rw [htrim]; exact List.cons_ne_nil _ _), htrim]
    exact hgen _ hlc

theorem single_letter_rejected_witness :
    ('k' = 'k' ∨ 'k' = 'K' ∨ 'k' = 'm' ∨ 'k' = 'M') ∧
    AttrToInt .int64 (lexical_cast .int64) ['k'] (DOMElement.mk ['e'] [] []) ['a']
      (ALLOW_K ||| ALLOW_M) =
        .error (TXmlError.TInvalidSignedIntegerAttr (DOMElement.mk ['e'] [] []) ['a'] ['k']) :=
  ⟨Or.inl rfl,
   (single_letter_rejected .int64 (DOMElement.mk ['e'] [] []) ['a'] (ALLOW_K ||| ALLOW_M) 'k'
      (Or.inl rfl)).2.2.2.1⟩

/-- C14 (as stated, at a text that is the empty-value name): with `ALLOW_K` not
set, `GetOptUint64` on the text `5k`, the numeral `5` followed by `k`, called
with `empty_value_name` equal to `5k`, throws nothing: it returns unknown. -/
theorem GetOptUint64_disabled_suffix_counterexample :
    isNumeral ['5'] = true ∧
    hasOpt 0 ALLOW_K = false ∧
    (DOMElement.mk ['e'] [(['a'], ['5', 'k'])] []).getAttributeNode ['a'] =
      some (['5'] ++ ['k']) ∧
    GetOptUint64 (lexical_cast .uint64) (DOMElement.mk ['e'] [(['a'], ['5', 'k'])] []) ['a']
      (some ['5', 'k']) 0 = .ok none := by
  refine ⟨by decide, by decide, rfl, rfl⟩

/-- C14 (amended): a multiplier suffix that the caller did not enable is not
accepted.  For every text `s`, numerals included, if `ALLOW_K` is not set and
`c` is `k` or `K`, or `ALLOW_M` is not set and `c` is `m` or `M` (whatever the
other flag is), then on an attribute whose trimmed value is `s ++ c`, which the
cast rejects, `GetUint64` / `GetInt64` throw the invalid-integer error, and so
do `GetOptUint64` / `GetOptInt64` unless the text is the `empty_value_name`, in
which case they return unknown. -/
theorem disabled_suffix_rejected (T : IntType) (cast : List Char → Option Int)
    (elem : DOMElement) (attr_name value s : List Char) (c : Char) (opts : Nat)
    (hsuffix : ((c = 'k' ∨ c = 'K') ∧ hasOpt opts ALLOW_K = false) ∨
      ((c = 'm' ∨ c = 'M') ∧ hasOpt opts ALLOW_M = false))
    (hattr : elem.getAttributeNode attr_name = some value)
    (htrim : trim value = s ++ [c])
    (hcast : cast (s ++ [c]) = none) :
    lexical_cast T (s ++ [c]) = none ∧
    Get64BitIntAttr T cast elem attr_name opts =
      .error (invalidIntegerAttr T elem attr_name (s ++ [c])) ∧
    (∀ empty_value_name, empty_value_name ≠ some (s ++ [c]) →
      GetOpt64BitIntAttr T cast elem attr_name empty_value_name opts =
        .error (invalidIntegerAttr T elem attr_name (s ++ [c]))) ∧
    GetOpt64BitIntAttr T cast elem attr_name (some (s ++ [c])) opts = .ok none := by
  have hne : trim value ≠ [] := by
    rw [htrim]
    exact List.append_ne_nil_of_right_ne_nil s (List.cons_ne_nil c [])
  have hsuf : c = 'k' ∨ c = 'K' ∨ c = 'm' ∨ c = 'M' := by
    rcases hsuffix with ⟨h | h, _⟩ | ⟨h | h, _⟩
    · exact Or.inl h
    · exact Or.inr (Or.inl h)
    · exact Or.inr (Or.inr (Or.inl h))
    · exact Or.inr (Or.inr (Or.inr h))
  have hlc : lexical_cast T (s ++ [c]) = none := by
    apply lexical_cast_bad_last T (s ++ [c])
      (List.append_ne_nil_of_right_ne_nil s (List.cons_ne_nil c []))
    rw [List.getLast_append_of_ne_nil (List.cons_ne_nil c [])]
    exact (suffix_not_space c hsuf).2.1
  have hA : AttrToInt T cast (s ++ [c]) elem attr_name opts =
      .error (invalidIntegerAttr T elem attr_name (s ++ [c])) := by
    rw [AttrToInt_eval, ExtractMultiplier_disabled s c opts hsuffix]
    simp only [hcast]
  refine ⟨hlc, ?_, ?_, ?_⟩
  · rw [Get64BitIntAttr_of_trim T cast elem attr_name value opts hattr hne, htrim]
    exact hA
  · intro empty_value_name hemp
    rw [GetOpt64BitIntAttr_of_trim T cast elem attr_name value empty_value_name opts hattr hne,
      htrim, if_neg hemp, hA]
  · rw [GetOpt64BitIntAttr_of_trim T cast elem attr_name value _ opts hattr hne, htrim,
      if_pos rfl]

theorem disabled_suffix_rejected_witness :
    (('k' = 'k' ∨ 'k' = 'K') ∧ hasOpt ALLOW_M ALLOW_K = false) ∧
    GetUint64 (lexical_cast .uint64) (DOMElement.mk ['e'] [(['a'], [' ', '5', 'k'])] []) ['a']
      ALLOW_M =
        .error (TXmlError.TInvalidUnsignedIntegerAttr
          (DOMElement.mk ['e'] [(['a'], [' ', '5', 'k'])] []) ['a'] ['5', 'k']) :=
  ⟨⟨Or.inl rfl, by decide⟩,
   (disabled_suffix_rejected .uint64 (lexical_cast .uint64)
      (DOMElement.mk ['e'] [(['a'], [' ', '5', 'k'])] []) ['a'] [' ', '5', 'k'] ['5'] 'k'
      ALLOW_M (Or.inl ⟨Or.inl rfl, by decide⟩) rfl (by decide) (by decide)).2.1⟩

theorem numeral_reading (T : IntType) (cast : List Char → Option Int)
    (elem0 : DOMElement) (attr_name s : List Char) (opts0 : Nat) (v : Int)
    (hs : isNumeral s = true)
    (h0attr : elem0.getAttributeNode attr_name = some s)
    (hread : Get64BitIntAttr T cast elem0 attr_name opts0 = .ok v) :
    cast s = some v := by
  obtain ⟨hne, hhead, hdigit⟩ := isNumeral_ends s hs
  have hsp := digit_not_special _ hdigit
  have htrim : trim s = s := trim_eq_self s hne hhead hsp.1
  rw [Get64BitIntAttr_of_trim T cast elem0 attr_name s opts0 h0attr (by rw [htrim]; exact hne),
    htrim, AttrToInt_eval, ExtractMultiplier_plain s opts0 hne hsp.2] at hread
  cases hc : cast s with
  | none =>
    simp only [hc] at hread
    cases hread
  | some v' =>
    simp only [hc] at hread
    split at hread
    · cases hread
      simp
    · cases hread

/-- C12: multiplier suffixes scale the unsuffixed reading.  For every decimal
numeral `s` that `GetUint64` (resp. `GetInt64`) reads as `v` with no suffix and
every run `w` of whitespace characters: with `ALLOW_K` set the text
`s ++ w ++ k` (or `K`) is read as `1024 * v`, and with `ALLOW_M` set the text
`s ++ w ++ m` (or `M`) is read as `1048576 * v`, whenever that product is in
the range of the type; when it is out of range the call throws
`TAttrOutOfRange`. -/
theorem suffix_scales_reading (T : IntType) (cast : List Char → Option Int)
    (elem0 elem : DOMElement) (attr_name s w : List Char) (c : Char) (opts0 opts : Nat)
    (v : Int)
    (hs : isNumeral s = true)
    (hw : ∀ x ∈ w, isspace x = true)
    (h0attr : elem0.getAttributeNode attr_name = some s)
    (hread : Get64BitIntAttr T cast elem0 attr_name opts0 = .ok v)
    (hattr : elem.getAttributeNode attr_name = some (s ++ w ++ [c])) :
    ((c = 'k' ∨ c = 'K') → hasOpt opts ALLOW_K = true →
      Get64BitIntAttr T cast elem attr_name opts =
        if T.min ≤ 1024 * v ∧ 1024 * v ≤ T.max then .ok (1024 * v)
        else .error (TXmlError.TAttrOutOfRange elem attr_name (s ++ w ++ [c]))) ∧
    ((c = 'm' ∨ c = 'M') → hasOpt opts ALLOW_M = true →
      Get64BitIntAttr T cast elem attr_name opts =
        if T.min ≤ 1048576 * v ∧ 1048576 * v ≤ T.max then .ok (1048576 * v)
        else .error (TXmlError.TAttrOutOfRange elem attr_name (s ++ w ++ [c]))) := by
  have hcast := numeral_reading T cast elem0 attr_name s opts0 v hs h0attr hread
  obtain ⟨hne, hhead, hdigit⟩ := isNumeral_ends s hs
  have hsp := digit_not_special _ hdigit
  have hbody : s ++ w ≠ [] := List.append_ne_nil_of_left_ne_nil hne w
  have hfull : s ++ w ++ [c] ≠ [] := List.append_ne_nil_of_left_ne_nil hbody [c]
  have hrest : trim_right (s ++ w) = s := trim_right_append_space s w hne hsp.1 hw
  have hkey : ∀ (hc : c = 'k' ∨ c = 'K' ∨ c = 'm' ∨ c = 'M') (m : Nat),
      ExtractMultiplier (s ++ w ++ [c]) opts = (m, trim_right (s ++ w)) →
      Get64BitIntAttr T cast elem attr_name opts =
        if T.min ≤ v * (m : Int) ∧ v * (m : Int) ≤ T.max then .ok (v * (m : Int))
        else .error (TXmlError.TAttrOutOfRange elem attr_name (s ++ w ++ [c])) := by
    intro hc m hEM
    have htrim : trim (s ++ w ++ [c]) = s ++ w ++ [c] := by
      apply trim_eq_self _ hfull
      · rw [List.head_append_of_ne_nil hbody, List.head_append_of_ne_nil hne]
        exact hhead
      · rw [List.getLast_append_of_ne_nil (List.cons_ne_nil c [])]
        exact (suffix_not_space c hc).1
    rw [Get64BitIntAttr_of_trim T cast elem attr_name _ opts hattr (by rw [htrim]; exact hfull),
      htrim, AttrToInt_eval, hEM, hrest]
    simp only [hcast]
  constructor
  · intro hc ho
    have hc4 : c = 'k' ∨ c = 'K' ∨ c = 'm' ∨ c = 'M' := by
      rcases hc with h | h
      · exact Or.inl h
      · exact Or.inr (Or.inl h)
    rw [hkey hc4 1024 ((ExtractMultiplier_suffixed (s ++ w) c opts hbody).1 hc ho)]
    simp only [Nat.cast_ofNat, Int.mul_comm v 1024]
  · intro hc ho
    have hc4 : c = 'k' ∨ c = 'K' ∨ c = 'm' ∨ c = 'M' := by
      rcases hc with h | h
      · exact Or.inr (Or.inr (Or.inl h))
      · exact Or.inr (Or.inr (Or.inr h))
    rw [hkey hc4 1048576 ((ExtractMultiplier_suffixed (s ++ w) c opts hbody).2 hc ho)]
    simp only [Nat.cast_ofNat, Int.mul_comm v 1048576]

theorem suffix_scales_reading_witness :
    isNumeral ['1'] = true ∧
    GetUint64 (lexical_cast .uint64) (DOMElement.mk ['e'] [(['a'], ['1'])] []) ['a'] 0 = .ok 1 ∧
    GetUint64 (lexical_cast .uint64) (DOMElement.mk ['e'] [(['a'], ['1', ' ', 'm'])] []) ['a']
      (ALLOW_K ||| ALLOW_M) = .ok 1048576 ∧
    GetUint64 (lexical_cast .uint64) (DOMElement.mk ['e'] [(['a'], ['1', 'm'])] []) ['a']
      (ALLOW_K ||| ALLOW_M) =
    GetUint64 (lexical_cast .uint64)
      (DOMElement.mk ['e'] [(['a'], ['1', '0', '2', '4', 'k'])] []) ['a']
      (ALLOW_K ||| ALLOW_M) :=
  ⟨by decide, rfl,
   (suffix_scales_reading .uint64 (lexical_cast .uint64)
      (DOMElement.mk ['e'] [(['a'], ['1'])] [])
      (DOMElement.mk ['e'] [(['a'], ['1', ' ', 'm'])] []) ['a'] ['1'] [' '] 'm' 0
      (ALLOW_K ||| ALLOW_M) 1 (by decide) (by decide) rfl rfl rfl).2 (Or.inl rfl) (by decide),
   rfl⟩

/-! ## Order of the violations reported by `GetSubsectionElements` -/

theorem loop_append (m : UMap Bool) (allow : Bool) (pre rest : List (Node DOMElement)) :
    ∀ r, GetSubsectionElements.loop m allow (pre ++ rest) r =
      match GetSubsectionElements.loop m allow pre r with
      | .error x => .error x
      | .ok r1 => GetSubsectionElements.loop m allow rest r1 := by
  induction pre with
  | nil =>
    intro r
    rw [List.nil_append, GetSubsectionElements.loop]
  | cons c cs ih =>
    intro r
    cases c with
    | other =>
      rw [List.cons_append, GetSubsectionElements.loop, GetSubsectionElements.loop, ih]
    | text d =>
      rw [List.cons_append, GetSubsectionElements.loop, GetSubsectionElements.loop, ih]
      split <;> rfl
    | cdata d =>
      rw [List.cons_append, GetSubsectionElements.loop, GetSubsectionElements.loop, ih]
      split <;> rfl
    | element e =>
      rw [List.cons_append, GetSubsectionElements.loop, GetSubsectionElements.loop]
      simp only [ih]
      split
      · split <;> rfl
      · split <;> rfl

theorem loop_error_split (m : UMap Bool) (allow : Bool) (cs : List (Node DOMElement)) :
    ∀ r x, GetSubsectionElements.loop m allow cs r = .error x →
      ∃ pre bad post r1, cs = pre ++ bad :: post ∧
        GetSubsectionElements.loop m allow pre r = .ok r1 ∧
        GetSubsectionElements.loop m allow [bad] r1 = .error x := by
  induction cs with
  | nil =>
    intro r x h
    rw [GetSubsectionElements.loop] at h
    cases h
  | cons c rest ih =>
    intro r x h
    have happ := loop_append m allow [c] rest r
    rw [List.singleton_append] at happ
    rw [happ] at h
    cases hc : GetSubsectionElements.loop m allow [c] r with
    | error y =>
      rw [hc] at h
      cases h
      exact ⟨[], c, rest, r, rfl, by rw [GetSubsectionElements.loop], hc⟩
    | ok r' =>
      rw [hc] at h
      obtain ⟨pre, bad, post, r1, hsplit, hpre, hbad⟩ := ih r' x h
      refine ⟨c :: pre, bad, post, r1, by rw [hsplit]; rfl, ?_, hbad⟩
      have happ2 := loop_append m allow [c] pre r
      rw [List.singleton_append] at happ2
      rw [happ2, hc]
      exact hpre

theorem loop_single_error_iff (m : UMap Bool) (allow : Bool) (bad : Node DOMElement)
    (r1 : UMap DOMElement) (x : TXmlError) :
    GetSubsectionElements.loop m allow [bad] r1 = .error x ↔
      ((∃ e, bad = Node.element e ∧ UMap.count m e.getTagName = true ∧
          UMap.count r1 e.getTagName = true ∧ x = TXmlError.TDuplicateElement e) ∨
        (∃ e, bad = Node.element e ∧ UMap.count m e.getTagName = false ∧ allow = false ∧
          x = TXmlError.TUnknownElement e) ∨
        (∃ d, (bad = Node.text d ∨ bad = Node.cdata d) ∧ IsAllWhitespace d = false ∧
          x = TXmlError.TUnexpectedText bad)) := by
  cases bad with
  | other =>
    rw [GetSubsectionElements.loop, GetSubsectionElements.loop]
    constructor
    · intro h; cases h
    · rintro (⟨e, h, _⟩ | ⟨e, h, _⟩ | ⟨d, h | h, _⟩) <;> cases h
  | text d =>
    rw [GetSubsectionElements.loop, GetSubsectionElements.loop]
    cases hw : IsAllWhitespace d with
    | true =>
      simp only [Bool.not_true, Bool.false_eq_true, if_false]
      constructor
      · intro h; cases h
      · rintro (⟨e, h, _⟩ | ⟨e, h, _⟩ | ⟨d', h | h, hw', _⟩)
        · cases h
        · cases h
        · cases h; rw [hw] at hw'; cases hw'
        · cases h
    | false =>
      simp only [Bool.not_false, if_true]
      constructor
      · intro h
        cases h
        exact Or.inr (Or.inr ⟨d, Or.inl rfl, hw, rfl⟩)
      · rintro (⟨e, h, _⟩ | ⟨e, h, _⟩ | ⟨d', h | h, _, hx⟩)
        · cases h
        · cases h
        · rw [hx]
        · cases h
  | cdata d =>
    rw [GetSubsectionElements.loop, GetSubsectionElements.loop]
    cases hw : IsAllWhitespace d with
    | true =>
      simp only [Bool.not_true, Bool.false_eq_true, if_false]
      constructor
      · intro h; cases h
      · rintro (⟨e, h, _⟩ | ⟨e, h, _⟩ | ⟨d', h | h, hw', _⟩)
        · cases h
        · cases h
        · cases h
        · cases h; rw [hw] at hw'; cases hw'
    | false =>
      simp only [Bool.not_false, if_true]
      constructor
      · intro h
        cases h
        exact Or.inr (Or.inr ⟨d, Or.inr rfl, hw, rfl⟩)
      · rintro (⟨e, h, _⟩ | ⟨e, h, _⟩ | ⟨d', h | h, _, hx⟩)
        · cases h
        · cases h
        · cases h
        · rw [hx]
  | element e =>
    rw [GetSubsectionElements.loop]
    cases hc : UMap.count m e.getTagName with
    | true =>
      cases hr : UMap.count r1 e.getTagName with
      | true =>
        simp only [if_true, UMap.insert, hr, Bool.not_false]
        constructor
        · intro h
          cases h
          exact Or.inl ⟨e, rfl, hc, hr, rfl⟩
        · rintro (⟨e', h, _, _, hx⟩ | ⟨e', h, hc', _⟩ | ⟨d, h | h, _⟩)
          · cases h; rw [hx]
          · cases h; rw [hc] at hc'; cases hc'
          · cases h
          · cases h
      | false =>
        simp only [if_true, UMap.insert, hr, Bool.false_eq_true, if_false, Bool.not_true,
          GetSubsectionElements.loop]
        constructor
        · intro h; cases h
        · rintro (⟨e', h, _, hr', _⟩ | ⟨e', h, hc', _⟩ | ⟨d, h | h, _⟩)
          · cases h; rw [hr] at hr'; cases hr'
          · cases h; rw [hc] at hc'; cases hc'
          · cases h
          · cases h
    | false =>
      cases allow with
      | false =>
        simp only [Bool.false_eq_true, if_false, Bool.not_false, if_true]
        constructor
        · intro h
          cases h
          exact Or.inr (Or.inl ⟨e, rfl, hc, trivial, rfl⟩)
        · rintro (⟨e', h, hc', _⟩ | ⟨e', h, _, _, hx⟩ | ⟨d, h | h, _⟩)
          · cases h; rw [hc] at hc'; cases hc'
          · cases h; rw [hx]
          · cases h
          · cases h
      | true =>
        simp only [Bool.false_eq_true, if_false, Bool.not_true, GetSubsectionElements.loop]
        constructor
        · intro h; cases h
        · rintro (⟨e', h, hc', _⟩ | ⟨e', h, _, ha, _⟩ | ⟨d, h | h, _⟩)
          · cases h; rw [hc] at hc'; cases hc'
          · cases ha
          · cases h
          · cases h

theorem checkRequired_error (parent : DOMElement) (result : UMap DOMElement)
    (vec : List (List Char × Bool)) (x : TXmlError)
    (h : GetSubsectionElements.checkRequired parent result vec = .error x) :
    ∃ vpre name vpost, vec = vpre ++ (name, true) :: vpost ∧
      (∀ n, (n, true) ∈ vpre → UMap.count result n = true) ∧
      UMap.count result name = false ∧ x = TXmlError.TMissingChildElement parent name := by
  induction vec with
  | nil =>
    rw [GetSubsectionElements.checkRequired] at h
    cases h
  | cons item rest ih =>
    rw [GetSubsectionElements.checkRequired] at h
    obtain ⟨n, b⟩ := item
    by_cases hcond : (b && !UMap.count result n) = true
    · rw [if_pos hcond] at h
      rw [Bool.and_eq_true, Bool.not_eq_true'] at hcond
      cases h
      refine ⟨[], n, rest, ?_, (fun n' hn' => by cases hn'), hcond.2, rfl⟩
      rw [hcond.1]
      rfl
    · rw [if_neg hcond] at h
      obtain ⟨vpre, name, vpost, hsplit, hpre, hname, hx⟩ := ih h
      refine ⟨(n, b) :: vpre, name, vpost, by rw [hsplit]; rfl, ?_, hname, hx⟩
      intro n' hn'
      rcases List.mem_cons.mp hn' with h1 | h1
      · cases h1
        by_contra hcon
        apply hcond
        rw [Bool.and_eq_true, Bool.not_eq_true']
        exact ⟨rfl, by simpa using hcon⟩
      · exact hpre n' h1

theorem loop_nil_ok_iff (vec : List (List Char × Bool)) (allow : Bool)
    (cs : List (Node DOMElement)) (r1 : UMap DOMElement) :
    GetSubsectionElements.loop (GetSubsectionElements.buildMap vec) allow cs [] = .ok r1 ↔
      ChildrenPass vec allow cs ∧
        r1 = listedElems (GetSubsectionElements.buildMap vec) cs := by
  rw [loop_ok_iff, List.nil_append]
  unfold ChildrenPass
  constructor
  · rintro ⟨hA, hB, hC, _, hres⟩
    refine ⟨⟨?_, ?_, ?_⟩, hres⟩
    · rintro d (hd | hd)
      · exact (IsAllWhitespace_iff d).mp (hA _ hd d (Or.inl rfl))
      · exact (IsAllWhitespace_iff d).mp (hA _ hd d (Or.inr rfl))
    · rcases hB with hB | hB
      · exact Or.inl hB
      · exact Or.inr (fun e he => (buildMap_count _ _).mp (hB _ he e rfl))
    · intro i j e1 e2 hij h1 h2 ht hmem
      have := (pairwise_NoClash_iff _ _).mp hC i j e1 e2 hij h1 h2 ht
      rw [(buildMap_count _ _).mpr hmem] at this
      cases this
  · rintro ⟨⟨hA, hB, hC⟩, hres⟩
    refine ⟨?_, ?_, ?_, ?_, hres⟩
    · rintro c hc d (hd | hd)
      · subst hd; exact (IsAllWhitespace_iff d).mpr (hA d (Or.inl hc))
      · subst hd; exact (IsAllWhitespace_iff d).mpr (hA d (Or.inr hc))
    · rcases hB with hB | hB
      · exact Or.inl hB
      · refine Or.inr (fun c hc e he => ?_)
        subst he
        exact (buildMap_count _ _).mpr (hB e hc)
    · rw [pairwise_NoClash_iff]
      intro i j e1 e2 hij h1 h2 ht
      have := hC i j e1 e2 hij h1 h2 ht
      rw [← buildMap_count] at this
      simpa using this
    · intro c _ e _ _
      rfl

theorem loop_single_Offends (vec : List (List Char × Bool)) (allow : Bool)
    (pre : List (Node DOMElement)) (bad : Node DOMElement) (x : TXmlError) :
    GetSubsectionElements.loop (GetSubsectionElements.buildMap vec) allow [bad]
        (listedElems (GetSubsectionElements.buildMap vec) pre) = .error x ↔
      Offends vec allow pre bad x := by
  rw [loop_single_error_iff]
  unfold Offends
  have hnot : ∀ n : List Char,
      UMap.count (GetSubsectionElements.buildMap vec) n = false ↔ n ∉ vec.map Prod.fst := by
    intro n
    rw [← buildMap_count]
    cases UMap.count (GetSubsectionElements.buildMap vec) n <;> simp
  have hws : ∀ d : List Char, IsAllWhitespace d = false ↔ ¬ ∀ ch ∈ d, isspace ch = true := by
    intro d
    rw [← IsAllWhitespace_iff]
    cases IsAllWhitespace d <;> simp
  constructor
  · rintro (⟨e, hb, hm, hr, hx⟩ | ⟨e, hb, hm, ha, hx⟩ | ⟨d, hb, hw, hx⟩)
    · rw [listedElems_count] at hr
      exact Or.inl ⟨e, hb, (buildMap_count _ _).mp hm, hr.2, hx⟩
    · exact Or.inr (Or.inl ⟨e, hb, (hnot _).mp hm, ha, hx⟩)
    · exact Or.inr (Or.inr ⟨d, hb, (hws d).mp hw, hx⟩)
  · rintro (⟨e, hb, hm, hr, hx⟩ | ⟨e, hb, hm, ha, hx⟩ | ⟨d, hb, hw, hx⟩)
    · refine Or.inl ⟨e, hb, (buildMap_count _ _).mpr hm, ?_, hx⟩
      rw [listedElems_count]
      exact ⟨(buildMap_count _ _).mpr hm, hr⟩
    · exact Or.inr (Or.inl ⟨e, hb, (hnot _).mpr hm, ha, hx⟩)
    · exact Or.inr (Or.inr ⟨d, hb, (hws d).mpr hw, hx⟩)

/-- C17: `GetSubsectionElements` reports the first violation in document order.
When it throws, either some child is a violation (a duplicate listed element,
an unknown element when unknown ones are not allowed, or non-whitespace text),
every child before it passes, and the exception is the one for that child; or
every child passes and the exception is `TMissingChildElement` for the first
entry of `subsection_vec`, in vector order, that is marked required and is the
tag name of no element child.  Conversely the first violating child decides
the exception, so `TMissingChildElement` is thrown only when every child
passes, and an unknown element that no violation precedes is reported as
`TUnknownElement` whether or not a required element is missing as well. -/
theorem GetSubsectionElements_first_violation (parent : DOMElement)
    (subsection_vec : List (List Char × Bool)) (allow_unknown_subsection : Bool) :
    (∀ x, GetSubsectionElements parent subsection_vec allow_unknown_subsection = .error x →
      (∃ pre bad post, parent.children = pre ++ bad :: post ∧
        ChildrenPass subsection_vec allow_unknown_subsection pre ∧
        Offends subsection_vec allow_unknown_subsection pre bad x) ∨
      (ChildrenPass subsection_vec allow_unknown_subsection parent.children ∧
        ∃ vpre name vpost, subsection_vec = vpre ++ (name, true) :: vpost ∧
          (∀ n, (n, true) ∈ vpre →
            ∃ e, Node.element e ∈ parent.children ∧ e.getTagName = n) ∧
          (∀ e, Node.element e ∈ parent.children → e.getTagName ≠ name) ∧
          x = TXmlError.TMissingChildElement parent name)) ∧
    (∀ pre bad post x, parent.children = pre ++ bad :: post →
      ChildrenPass subsection_vec allow_unknown_subsection pre →
      Offends subsection_vec allow_unknown_subsection pre bad x →
      GetSubsectionElements parent subsection_vec allow_unknown_subsection = .error x) ∧
    (∀ p n, GetSubsectionElements parent subsection_vec allow_unknown_subsection =
        .error (TXmlError.TMissingChildElement p n) →
      ChildrenPass subsection_vec allow_unknown_subsection parent.children) ∧
    (∀ pre e post, allow_unknown_subsection = false →
      parent.children = pre ++ Node.element e :: post →
      ChildrenPass subsection_vec allow_unknown_subsection pre →
      e.getTagName ∉ subsection_vec.map Prod.fst →
      GetSubsectionElements parent subsection_vec allow_unknown_subsection =
        .error (TXmlError.TUnknownElement e)) ∧
    GetSubsectionElements
        (DOMElement.mk ['r'] [] [Node.text [' '], Node.element (DOMElement.mk ['z'] [] [])])
        [(['a'], true)] false =
      .error (TXmlError.TUnknownElement (DOMElement.mk ['z'] [] [])) := by
  have hfwd : ∀ x,
      GetSubsectionElements parent subsection_vec allow_unknown_subsection = .error x →
      (∃ pre bad post, parent.children = pre ++ bad :: post ∧
        ChildrenPass subsection_vec allow_unknown_subsection pre ∧
        Offends subsection_vec allow_unknown_subsection pre bad x) ∨
      (ChildrenPass subsection_vec allow_unknown_subsection parent.children ∧
        ∃ vpre name vpost, subsection_vec = vpre ++ (name, true) :: vpost ∧
          (∀ n, (n, true) ∈ vpre →
            ∃ e, Node.element e ∈ parent.children ∧ e.getTagName = n) ∧
          (∀ e, Node.element e ∈ parent.children → e.getTagName ≠ name) ∧
          x = TXmlError.TMissingChildElement parent name) := by
    intro x h
    unfold GetSubsectionElements at h
    cases hl : GetSubsectionElements.loop (GetSubsectionElements.buildMap subsection_vec)
        allow_unknown_subsection parent.children [] with
    | error y =>
      simp only [hl] at h
      cases h
      obtain ⟨pre, bad, post, r1, hsplit, hpre, hbad⟩ := loop_error_split _ _ _ _ _ hl
      obtain ⟨hpass, hr1⟩ := (loop_nil_ok_iff _ _ _ _).mp hpre
      rw [hr1] at hbad
      exact Or.inl ⟨pre, bad, post, hsplit, hpass, (loop_single_Offends _ _ _ _ _).mp hbad⟩
    | ok result =>
      simp only [hl] at h
      obtain ⟨hpass, hres⟩ := (loop_nil_ok_iff _ _ _ _).mp hl
      cases hq : GetSubsectionElements.checkRequired parent result subsection_vec with
      | ok u => simp only [hq] at h; cases h
      | error y =>
        simp only [hq] at h
        cases h
        obtain ⟨vpre, name, vpost, hsplit, hvpre, hname, hx⟩ :=
          checkRequired_error parent result subsection_vec _ hq
        refine Or.inr ⟨hpass, vpre, name, vpost, hsplit, ?_, ?_, hx⟩
        · intro n hn
          have := hvpre n hn
          rw [hres, listedElems_count] at this
          exact this.2
        · intro e he htag
          have hlisted : UMap.count (GetSubsectionElements.buildMap subsection_vec) name =
              true := by
            rw [buildMap_count, hsplit]
            exact List.mem_map.mpr ⟨(name, true),
              List.mem_append_right _ (List.mem_cons_self _ _), rfl⟩
          have hcount : UMap.count result name = true := by
            rw [hres, listedElems_count]
            exact ⟨hlisted, e, he, htag⟩
          rw [hname] at hcount
          cases hcount
  have hback : ∀ pre bad post x, parent.children = pre ++ bad :: post →
      ChildrenPass subsection_vec allow_unknown_subsection pre →
      Offends subsection_vec allow_unknown_subsection pre bad x →
      GetSubsectionElements parent subsection_vec allow_unknown_subsection = .error x := by
    intro pre bad post x hsplit hpass hoff
    have hpre := (loop_nil_ok_iff subsection_vec allow_unknown_subsection pre _).mpr
      ⟨hpass, rfl⟩
    have hbad := (loop_single_Offends _ _ _ _ _).mpr hoff
    have h1 := loop_append (GetSubsectionElements.buildMap subsection_vec)
      allow_unknown_subsection pre (bad :: post) []
    rw [hpre] at h1
    simp only at h1
    have h2 := loop_append (GetSubsectionElements.buildMap subsection_vec)
      allow_unknown_subsection [bad] post
      (listedElems (GetSubsectionElements.buildMap subsection_vec) pre)
    rw [List.singleton_append, hbad] at h2
    simp only at h2
    unfold GetSubsectionElements
    rw [hsplit]
    simp only [h1, h2]
  refine ⟨hfwd, hback, ?_, ?_, rfl⟩
  · intro p n h
    rcases hfwd _ h with ⟨pre, bad, post, _, _, hoff⟩ | ⟨hpass, _⟩
    · rcases hoff with ⟨e, _, _, _, hx⟩ | ⟨e, _, _, _, hx⟩ | ⟨d, _, _, hx⟩ <;> cases hx
    · exact hpass
  · intro pre e post hallow hsplit hpass hnot
    exact hback pre (Node.element e) post _ hsplit hpass
      (Or.inr (Or.inl ⟨e, rfl, hnot, hallow, rfl⟩))

end Dory
